import Mathlib

/-
Verification of the Square pickup-order reporting pipeline (src/app.py and
src/main.py) against its specification.

Shallow embedding conventions:
  * Python `dict`-shaped order data is modelled by records with `Option`-typed
    fields (`none` = key absent / JSON null).
  * An aware Python `datetime` is modelled by `PyDatetime`: the instant in
    microseconds since the Unix epoch (UTC) together with the `utcoffset` in
    seconds; the civil (year, month, day, ...) fields of the Python object are
    recovered from the instant via the calendar functions below, which are
    transcriptions of CPython's `datetime` internals (`_ord2ymd`, `_ymd2ord`,
    `_days_before_month`, `_is_leap`).
  * Python `date` values are modelled by their day number relative to the Unix
    epoch (Python's `toordinal() - 719163`); two dates are equal iff their day
    numbers are.
  * Functions that can raise (`datetime.fromisoformat` on malformed input,
    `int`/`float` on unparseable strings) return `Except String _` /
    `Option _`; an uncaught exception propagates as `Except.error`.
  * `local_today()` and `datetime.now` read the ambient clock; they enter the
    model as an explicit `today` parameter, and theorems quantify over it.
-/

/-! ## Calendar arithmetic (CPython `datetime` internals) -/

/-- CPython `_is_leap`: Gregorian leap-year predicate. -/
def isLeapYear (y : Int) : Prop := y % 4 = 0 ∧ (y % 100 ≠ 0 ∨ y % 400 = 0)

instance (y : Int) : Decidable (isLeapYear y) := by unfold isLeapYear; infer_instance

/-- CPython `_DAYS_BEFORE_MONTH` table: days in a non-leap year strictly before
month `m` (out-of-range arguments fall through to the December entry; they are
never reached on valid months). -/
def daysBeforeMonth (m : Int) : Int :=
  if m = 1 then 0 else if m = 2 then 31 else if m = 3 then 59 else if m = 4 then 90
  else if m = 5 then 120 else if m = 6 then 151 else if m = 7 then 181 else if m = 8 then 212
  else if m = 9 then 243 else if m = 10 then 273 else if m = 11 then 304 else 334

/-- CPython `_DAYS_IN_MONTH` table (non-leap lengths; February's leap day is
added separately, as in CPython). -/
def daysInMonth (m : Int) : Int :=
  if m = 1 then 31 else if m = 2 then 28 else if m = 3 then 31 else if m = 4 then 30
  else if m = 5 then 31 else if m = 6 then 30 else if m = 7 then 31 else if m = 8 then 31
  else if m = 9 then 30 else if m = 10 then 31 else if m = 11 then 30 else 31

/-- CPython `_ymd2ord`: proleptic-Gregorian ordinal of a calendar date
(ordinal 1 is 0001-01-01).  `_days_before_year` is inlined as the first four
summands. -/
def ymd2ord (y m d : Int) : Int :=
  (y - 1) * 365 + (y - 1) / 4 - (y - 1) / 100 + (y - 1) / 400
    + daysBeforeMonth m + (if 2 < m ∧ isLeapYear y then 1 else 0) + d

/-- The month-guess block of CPython's `_ord2ymd`, written without local
bindings: the guess `month` is `(nrem + 50) / 32` (CPython writes
`(n + 50) >> 5`), `preceding` is
`daysBeforeMonth month + (if 2 < month then leapI else 0)`; when
`preceding > nrem` the guess is one month too far, so it is decremented and
`preceding` reduced by the length of the decremented month.  `leapI` is the
leap flag as an integer (CPython adds the bool directly into arithmetic).
Returns the `(month, day)` pair. -/
def findMonthDay (nrem : Int) (leapI : Int) : Int × Int :=
  if nrem < daysBeforeMonth ((nrem + 50) / 32) + (if 2 < (nrem + 50) / 32 then leapI else 0) then
    ((nrem + 50) / 32 - 1,
      nrem - ((daysBeforeMonth ((nrem + 50) / 32) + (if 2 < (nrem + 50) / 32 then leapI else 0))
        - (daysInMonth ((nrem + 50) / 32 - 1)
            + (if (nrem + 50) / 32 - 1 = 2 then leapI else 0))) + 1)
  else
    ((nrem + 50) / 32,
      nrem - (daysBeforeMonth ((nrem + 50) / 32)
        + (if 2 < (nrem + 50) / 32 then leapI else 0)) + 1)

/-- CPython `_ord2ymd`: calendar date of a proleptic-Gregorian ordinal.
CPython peels `divmod` layers `n400, n100, n4, n1` off `n = ordinal - 1`; here
each quotient/remainder is written out explicitly (Lean's `Int` `/` and `%`
are floor division and nonnegative remainder for positive divisors, matching
Python's `divmod`).  The first branch is CPython's special case
`n1 == 4 or n100 == 4` (last day of a leap year / of an era). -/
def ord2ymd (ordinal : Int) : Int × Int × Int :=
  if (ordinal - 1) % 146097 % 36524 % 1461 / 365 = 4 ∨ (ordinal - 1) % 146097 / 36524 = 4 then
    ((ordinal - 1) / 146097 * 400 + (ordinal - 1) % 146097 / 36524 * 100
      + (ordinal - 1) % 146097 % 36524 / 1461 * 4 + (ordinal - 1) % 146097 % 36524 % 1461 / 365,
     12, 31)
  else
    ((ordinal - 1) / 146097 * 400 + (ordinal - 1) % 146097 / 36524 * 100
      + (ordinal - 1) % 146097 % 36524 / 1461 * 4 + (ordinal - 1) % 146097 % 36524 % 1461 / 365
      + 1,
     (findMonthDay ((ordinal - 1) % 146097 % 36524 % 1461 % 365)
        (if (ordinal - 1) % 146097 % 36524 % 1461 / 365 = 3 ∧
            ((ordinal - 1) % 146097 % 36524 / 1461 ≠ 24 ∨ (ordinal - 1) % 146097 / 36524 = 3)
         then 1 else 0)).1,
     (findMonthDay ((ordinal - 1) % 146097 % 36524 % 1461 % 365)
        (if (ordinal - 1) % 146097 % 36524 % 1461 / 365 = 3 ∧
            ((ordinal - 1) % 146097 % 36524 / 1461 ≠ 24 ∨ (ordinal - 1) % 146097 / 36524 = 3)
         then 1 else 0)).2)

/-- Ordinal of the Unix epoch day 1970-01-01 (`date(1970,1,1).toordinal()`). -/
def epochOrdinal : Int := 719163

set_option maxHeartbeats 4000000 in
theorem findMonthDay_spec (nrem leapI m d : Int)
    (h : findMonthDay nrem leapI = (m, d))
    (h0 : 0 ≤ nrem) (h1 : nrem ≤ 364 + leapI) (h2 : leapI = 0 ∨ leapI = 1) :
    1 ≤ m ∧ m ≤ 12 ∧ 1 ≤ d ∧ d ≤ 31 ∧
    daysBeforeMonth m + (if 2 < m then leapI else 0) + d = nrem + 1 := by
  obtain ⟨q, hq⟩ : ∃ q, (nrem + 50) / 32 = q := ⟨_, rfl⟩
  unfold findMonthDay at h
  rw [hq] at h
  have hq1 : 1 ≤ q := by omega
  have hq2 : q ≤ 12 := by omega
  have hqb : 32 * q ≤ nrem + 50 ∧ nrem + 50 ≤ 32 * q + 31 := by omega
  clear hq
  interval_cases q <;>
    (norm_num [daysBeforeMonth, daysInMonth] at h; try split_ifs at h) <;>
    (injection h with hA hB; subst hA; subst hB) <;>
    (try norm_num [daysBeforeMonth]) <;>
    omega

set_option maxHeartbeats 1000000 in
theorem dby_parts (a b c d : Int) (hb0 : 0 ≤ b) (hb : b ≤ 3) (hc0 : 0 ≤ c) (hc : c ≤ 24)
    (hd0 : 0 ≤ d) (hd : d ≤ 3) :
    (a * 400 + b * 100 + c * 4 + d) * 365 + (a * 400 + b * 100 + c * 4 + d) / 4
      - (a * 400 + b * 100 + c * 4 + d) / 100 + (a * 400 + b * 100 + c * 4 + d) / 400
    = 146097 * a + 36524 * b + 1461 * c + 365 * d := by
  omega

set_option maxHeartbeats 4000000 in
/-- Calendar round trip, the core correctness fact behind RFC3339 parsing and
formatting: `_ymd2ord` inverts `_ord2ymd` on every ordinal. -/
theorem ymd2ord_ord2ymd (o y m d : Int) (h : ord2ymd o = (y, m, d)) :
    ymd2ord y m d = o := by
  unfold ord2ymd at h
  split_ifs at h with hsp hLc
  · injection h with hy hmd
    injection hmd with hm hd
    subst hy; subst hm; subst hd
    unfold ymd2ord
    norm_num [daysBeforeMonth]
    rcases hsp with hD | hB
    · have hdby := dby_parts ((o - 1) / 146097) ((o - 1) % 146097 / 36524) ((o - 1) % 146097 % 36524 / 1461) 3
        (by omega) (by omega) (by omega) (by omega) (by omega) (by omega)
      have hY : (o - 1) / 146097 * 400 + (o - 1) % 146097 / 36524 * 100 + (o - 1) % 146097 % 36524 / 1461 * 4 + (o - 1) % 146097 % 36524 % 1461 / 365 - 1 = (o - 1) / 146097 * 400 + (o - 1) % 146097 / 36524 * 100 + (o - 1) % 146097 % 36524 / 1461 * 4 + 3 := by omega
      rw [hY, hdby]
      split_ifs with hL <;> unfold isLeapYear at hL <;> omega
    · have hdby := dby_parts ((o - 1) / 146097) 3 24 3
        (by omega) (by omega) (by omega) (by omega) (by omega) (by omega)
      have hY : (o - 1) / 146097 * 400 + (o - 1) % 146097 / 36524 * 100 + (o - 1) % 146097 % 36524 / 1461 * 4 + (o - 1) % 146097 % 36524 % 1461 / 365 - 1 = (o - 1) / 146097 * 400 + 3 * 100 + 24 * 4 + 3 := by omega
      rw [hY, hdby]
      split_ifs with hL <;> unfold isLeapYear at hL <;> omega
  · injection h with hy hmd
    injection hmd with hm hd
    have hf : findMonthDay ((o - 1) % 146097 % 36524 % 1461 % 365) 1 = (m, d) := by
      rw [← hm, ← hd]
    obtain ⟨hm1, hm12, hd1, hdle, heq⟩ :=
      findMonthDay_spec _ 1 m d hf (by omega) (by omega) (by omega)
    subst hy
    unfold ymd2ord
    have hdby := dby_parts ((o - 1) / 146097) ((o - 1) % 146097 / 36524) ((o - 1) % 146097 % 36524 / 1461) ((o - 1) % 146097 % 36524 % 1461 / 365)
      (by omega) (by omega) (by omega) (by omega) (by omega) (by omega)
    have hY : (o - 1) / 146097 * 400 + (o - 1) % 146097 / 36524 * 100 + (o - 1) % 146097 % 36524 / 1461 * 4 + (o - 1) % 146097 % 36524 % 1461 / 365 + 1 - 1 = (o - 1) / 146097 * 400 + (o - 1) % 146097 / 36524 * 100 + (o - 1) % 146097 % 36524 / 1461 * 4 + (o - 1) % 146097 % 36524 % 1461 / 365 := by omega
    rw [hY, hdby]
    have hiso : isLeapYear ((o - 1) / 146097 * 400 + (o - 1) % 146097 / 36524 * 100 + (o - 1) % 146097 % 36524 / 1461 * 4 + (o - 1) % 146097 % 36524 % 1461 / 365 + 1) := by
      unfold isLeapYear; omega
    by_cases h2 : 2 < m
    · have hc1 : (2 < m ∧ isLeapYear ((o - 1) / 146097 * 400 + (o - 1) % 146097 / 36524 * 100 + (o - 1) % 146097 % 36524 / 1461 * 4 + (o - 1) % 146097 % 36524 % 1461 / 365 + 1)) := And.intro h2 hiso
      rw [if_pos hc1]
      rw [if_pos h2] at heq
      omega
    · have hc0 : ¬ (2 < m ∧ isLeapYear ((o - 1) / 146097 * 400 + (o - 1) % 146097 / 36524 * 100 + (o - 1) % 146097 % 36524 / 1461 * 4 + (o - 1) % 146097 % 36524 % 1461 / 365 + 1)) := fun hc => h2 hc.1
      rw [if_neg hc0]
      rw [if_neg h2] at heq
      omega
  · injection h with hy hmd
    injection hmd with hm hd
    have hf : findMonthDay ((o - 1) % 146097 % 36524 % 1461 % 365) 0 = (m, d) := by
      rw [← hm, ← hd]
    obtain ⟨hm1, hm12, hd1, hdle, heq⟩ :=
      findMonthDay_spec _ 0 m d hf (by omega) (by omega) (by omega)
    subst hy
    unfold ymd2ord
    have hdby := dby_parts ((o - 1) / 146097) ((o - 1) % 146097 / 36524) ((o - 1) % 146097 % 36524 / 1461) ((o - 1) % 146097 % 36524 % 1461 / 365)
      (by omega) (by omega) (by omega) (by omega) (by omega) (by omega)
    have hY : (o - 1) / 146097 * 400 + (o - 1) % 146097 / 36524 * 100 + (o - 1) % 146097 % 36524 / 1461 * 4 + (o - 1) % 146097 % 36524 % 1461 / 365 + 1 - 1 = (o - 1) / 146097 * 400 + (o - 1) % 146097 / 36524 * 100 + (o - 1) % 146097 % 36524 / 1461 * 4 + (o - 1) % 146097 % 36524 % 1461 / 365 := by omega
    rw [hY, hdby]
    have hniso : ¬ isLeapYear ((o - 1) / 146097 * 400 + (o - 1) % 146097 / 36524 * 100 + (o - 1) % 146097 % 36524 / 1461 * 4 + (o - 1) % 146097 % 36524 % 1461 / 365 + 1) := by
      unfold isLeapYear; omega
    have hc0 : ¬ (2 < m ∧ isLeapYear ((o - 1) / 146097 * 400 + (o - 1) % 146097 / 36524 * 100 + (o - 1) % 146097 % 36524 / 1461 * 4 + (o - 1) % 146097 % 36524 % 1461 / 365 + 1)) := fun hc => hniso hc.2
    rw [if_neg hc0]
    by_cases h2 : 2 < m
    · rw [if_pos h2] at heq; omega
    · rw [if_neg h2] at heq; omega

set_option maxHeartbeats 4000000 in
/-- Field ranges of `_ord2ymd` on the ordinals Python's `datetime` can
represent (years 1 through 9999): the components fit the fixed-width decimal
fields of `isoformat`. -/
theorem ord2ymd_ranges (o y m d : Int) (h : ord2ymd o = (y, m, d))
    (hlo : 1 ≤ o) (hhi : o ≤ 3652059) :
    1 ≤ y ∧ y ≤ 9999 ∧ 1 ≤ m ∧ m ≤ 12 ∧ 1 ≤ d ∧ d ≤ 31 := by
  unfold ord2ymd at h
  split_ifs at h with hsp hLc
  · injection h with hy hmd
    injection hmd with hm hd
    subst hy; subst hm; subst hd
    omega
  · injection h with hy hmd
    injection hmd with hm hd
    have hf : findMonthDay ((o - 1) % 146097 % 36524 % 1461 % 365) 1 = (m, d) := by
      rw [← hm, ← hd]
    obtain ⟨hm1, hm12, hd1, hdle, heq⟩ :=
      findMonthDay_spec _ 1 m d hf (by omega) (by omega) (by omega)
    subst hy
    refine ⟨by omega, ?_, hm1, hm12, hd1, hdle⟩
    omega
  · injection h with hy hmd
    injection hmd with hm hd
    have hf : findMonthDay ((o - 1) % 146097 % 36524 % 1461 % 365) 0 = (m, d) := by
      rw [← hm, ← hd]
    obtain ⟨hm1, hm12, hd1, hdle, heq⟩ :=
      findMonthDay_spec _ 0 m d hf (by omega) (by omega) (by omega)
    subst hy
    refine ⟨by omega, ?_, hm1, hm12, hd1, hdle⟩
    omega

/-! ## Decimal digits and fixed-width fields -/

/-- The decimal digit character for `n` between 0 and 9 (arguments outside the
range fall through to `'9'`; they are never reached in formatting, whose
inputs are reduced modulo 10). -/
def digitChar (n : Int) : Char :=
  if n = 0 then '0' else if n = 1 then '1' else if n = 2 then '2' else if n = 3 then '3'
  else if n = 4 then '4' else if n = 5 then '5' else if n = 6 then '6' else if n = 7 then '7'
  else if n = 8 then '8' else '9'

/-- Value of a decimal digit character, `none` on any other character. -/
def digitVal (c : Char) : Option Int :=
  if c = '0' then some 0 else if c = '1' then some 1 else if c = '2' then some 2
  else if c = '3' then some 3 else if c = '4' then some 4 else if c = '5' then some 5
  else if c = '6' then some 6 else if c = '7' then some 7 else if c = '8' then some 8
  else if c = '9' then some 9 else none

/-- Two-digit zero-padded decimal field (`%02d` for values in 0..99). -/
def fmt2 (n : Int) : List Char := [digitChar (n / 10), digitChar (n % 10)]

/-- Four-digit zero-padded decimal field (`%04d` for values in 0..9999). -/
def fmt4 (n : Int) : List Char :=
  [digitChar (n / 1000), digitChar (n / 100 % 10), digitChar (n / 10 % 10), digitChar (n % 10)]

/-- Six-digit zero-padded decimal field (`%06d`, used for microseconds). -/
def fmt6 (n : Int) : List Char :=
  [digitChar (n / 100000), digitChar (n / 10000 % 10), digitChar (n / 1000 % 10),
   digitChar (n / 100 % 10), digitChar (n / 10 % 10), digitChar (n % 10)]

/-- Numeric value of two digit characters. -/
def parse2 (c1 c2 : Char) : Option Int :=
  match digitVal c1, digitVal c2 with
  | some a, some b => some (10 * a + b)
  | _, _ => none

/-- Numeric value of four digit characters. -/
def parse4 (c1 c2 c3 c4 : Char) : Option Int :=
  match digitVal c1, digitVal c2, digitVal c3, digitVal c4 with
  | some a, some b, some c, some d => some (1000 * a + 100 * b + 10 * c + d)
  | _, _, _, _ => none

/-- Numeric value of six digit characters (the microsecond fraction). -/
def parse6 (c1 c2 c3 c4 c5 c6 : Char) : Option Int :=
  match digitVal c1, digitVal c2, digitVal c3, digitVal c4, digitVal c5, digitVal c6 with
  | some a, some b, some c, some d, some e, some f =>
    some (100000 * a + 10000 * b + 1000 * c + 100 * d + 10 * e + f)
  | _, _, _, _, _, _ => none

theorem digitVal_digitChar (n : Int) (h0 : 0 ≤ n) (h9 : n ≤ 9) :
    digitVal (digitChar n) = some n := by
  interval_cases n <;> decide

theorem parse2_fmt2 (n : Int) (h0 : 0 ≤ n) (h : n ≤ 99) :
    parse2 (digitChar (n / 10)) (digitChar (n % 10)) = some n := by
  unfold parse2
  rw [digitVal_digitChar (n / 10) (by omega) (by omega),
      digitVal_digitChar (n % 10) (by omega) (by omega)]
  norm_num
  omega

theorem parse4_fmt4 (n : Int) (h0 : 0 ≤ n) (h : n ≤ 9999) :
    parse4 (digitChar (n / 1000)) (digitChar (n / 100 % 10)) (digitChar (n / 10 % 10))
      (digitChar (n % 10)) = some n := by
  unfold parse4
  rw [digitVal_digitChar (n / 1000) (by omega) (by omega),
      digitVal_digitChar (n / 100 % 10) (by omega) (by omega),
      digitVal_digitChar (n / 10 % 10) (by omega) (by omega),
      digitVal_digitChar (n % 10) (by omega) (by omega)]
  norm_num
  omega

theorem parse6_fmt6 (n : Int) (h0 : 0 ≤ n) (h : n ≤ 999999) :
    parse6 (digitChar (n / 100000)) (digitChar (n / 10000 % 10)) (digitChar (n / 1000 % 10))
      (digitChar (n / 100 % 10)) (digitChar (n / 10 % 10)) (digitChar (n % 10)) = some n := by
  unfold parse6
  rw [digitVal_digitChar (n / 100000) (by omega) (by omega),
      digitVal_digitChar (n / 10000 % 10) (by omega) (by omega),
      digitVal_digitChar (n / 1000 % 10) (by omega) (by omega),
      digitVal_digitChar (n / 100 % 10) (by omega) (by omega),
      digitVal_digitChar (n / 10 % 10) (by omega) (by omega),
      digitVal_digitChar (n % 10) (by omega) (by omega)]
  norm_num
  omega

/-! ## Aware datetimes, RFC3339 strings, the fixed local timezone -/

/-- An aware Python `datetime`: `u` is the instant in microseconds since the
Unix epoch (UTC); `off` is `utcoffset()` in seconds.  The civil fields Python
stores are recovered from `u + off * 1000000`, so this representation is
isomorphic to Python's for aware datetimes. -/
structure PyDatetime where
  u : Int
  off : Int
deriving DecidableEq

/-- `datetime.isoformat()` of the UTC projection of the instant `u`, without
the trailing `"+00:00"` offset: `"YYYY-MM-DDTHH:MM:SS"` plus `".ffffff"`
exactly when the microsecond field is nonzero (CPython omits it when zero). -/
def isoformatUTCChars (u : Int) : List Char :=
  fmt4 (ord2ymd (u / 86400000000 + epochOrdinal)).1
    ++ '-' :: fmt2 (ord2ymd (u / 86400000000 + epochOrdinal)).2.1
    ++ '-' :: fmt2 (ord2ymd (u / 86400000000 + epochOrdinal)).2.2
    ++ 'T' :: fmt2 (u % 86400000000 / 3600000000)
    ++ ':' :: fmt2 (u % 86400000000 / 60000000 % 60)
    ++ ':' :: fmt2 (u % 86400000000 / 1000000 % 60)
    ++ (if u % 86400000000 % 1000000 = 0 then []
        else '.' :: fmt6 (u % 86400000000 % 1000000))

/-- `iso_utc` (src/app.py:30-32):
`dt.astimezone(timezone.utc).isoformat().replace("+00:00", "Z")`.
The UTC projection keeps the instant `dt.u` and has offset 0, so `isoformat`
renders the UTC civil fields followed by `"+00:00"`; that suffix is the only
occurrence of the pattern in the string (every other character is a digit or
one of `-`, `:`, `T`, `.`), so the `replace` rewrites it to the trailing
`"Z"`. -/
def iso_utc (dt : PyDatetime) : String := ⟨isoformatUTCChars dt.u ++ ['Z']⟩

/-- `str.replace("Z", "+00:00")`: every occurrence of `'Z'` is replaced. -/
def replaceZ (cs : List Char) : List Char :=
  cs.foldr (fun c acc => if c = 'Z' then '+' :: '0' :: '0' :: ':' :: '0' :: '0' :: acc
                         else c :: acc) []

/-- UTC offset suffix `±HH:MM` of an RFC3339 timestamp, in seconds.  CPython
rejects offsets of 24 hours or more (the `timedelta` passed to `timezone`
must be strictly less than a day). -/
def parseOffsetChars : List Char → Option Int
  | [sgn, o1, o2, ':', p1, p2] =>
    match parse2 o1 o2, parse2 p1 p2 with
    | some hh, some mm =>
      if (sgn = '+' ∨ sgn = '-') ∧ hh ≤ 23 ∧ mm ≤ 59 then
        some ((if sgn = '-' then -1 else 1) * (hh * 3600 + mm * 60))
      else none
    | _, _ => none
  | _ => none

/-- Trailing `[.ffffff]±HH:MM` of an RFC3339 timestamp: the optional six-digit
microsecond fraction (the width `isoformat` emits) followed by the mandatory
offset.  Returns `(microseconds, offset seconds)`; `trailCombine` is the
common failure-propagating combination of the two fields. -/
def trailCombine (v : Option Int) (o : Option Int) : Option (Int × Int) :=
  match v, o with
  | some usec, some offsec => some (usec, offsec)
  | _, _ => none

def parseTrailChars : List Char → Option (Int × Int)
  | '.' :: f1 :: f2 :: f3 :: f4 :: f5 :: f6 :: rest =>
    trailCombine (parse6 f1 f2 f3 f4 f5 f6) (parseOffsetChars rest)
  | rest => trailCombine (some 0) (parseOffsetChars rest)

/-- `datetime.fromisoformat` on the offset-bearing timestamps this pipeline
feeds it (the code always calls it after `replace("Z", "+00:00")`, and Square
pickup timestamps carry an offset): `"YYYY-MM-DD{T| |t}HH:MM:SS[.ffffff]±HH:MM"`.
`none` models the `ValueError` CPython raises on anything malformed.  Field
validation mirrors CPython: year at least 1 (at most 9999 is forced by the
four-digit field), month 1..12, day 1..31 and, for the month length check
(`d ≤ days_in_month(y, m)`), the extensionally equivalent condition that the
triple survives the ordinal round trip — a basic-range triple denotes a real
Gregorian date iff `_ord2ymd (_ymd2ord y m d) = (y, m, d)`.  Naive
(offset-free) inputs, which `astimezone` would interpret through the ambient
system timezone, and abbreviated fractions are outside the modelled subset. -/
def fromisoFields (py pm pd ph pmi ps : Option Int) (ptr : Option (Int × Int)) :
    Option PyDatetime :=
  match py, pm, pd, ph, pmi, ps, ptr with
  | some y, some m, some d, some hh, some mi, some ss, some (usec, offsec) =>
    if 1 ≤ y ∧ 1 ≤ m ∧ m ≤ 12 ∧ 1 ≤ d ∧ d ≤ 31 ∧ hh ≤ 23 ∧ mi ≤ 59 ∧ ss ≤ 59 ∧
        ord2ymd (ymd2ord y m d) = (y, m, d) then
      some ⟨(ymd2ord y m d - epochOrdinal) * 86400000000
              + (hh * 3600 + mi * 60 + ss) * 1000000 + usec - offsec * 1000000,
            offsec⟩
    else none
  | _, _, _, _, _, _, _ => none

def fromisoformatChars : List Char → Option PyDatetime
  | y1 :: y2 :: y3 :: y4 :: '-' :: m1 :: m2 :: '-' :: d1 :: d2 :: sep :: h1 :: h2 :: ':'
      :: mi1 :: mi2 :: ':' :: s1 :: s2 :: rest =>
    if sep = 'T' ∨ sep = ' ' ∨ sep = 't' then
      fromisoFields (parse4 y1 y2 y3 y4) (parse2 m1 m2) (parse2 d1 d2) (parse2 h1 h2)
        (parse2 mi1 mi2) (parse2 s1 s2) (parseTrailChars rest)
    else none
  | _ => none

/-- Epoch day of the Sunday on or after epoch day `t` (1970-01-01 was a
Thursday, so `(t + 4) % 7 = 0` characterises Sundays). -/
def firstSundayOnOrAfter (t : Int) : Int := t + (7 - (t + 4) % 7) % 7

/-- `ZoneInfo("America/Los_Angeles")` offset (seconds) at the UTC instant `u`
(microseconds since epoch), under the post-2007 US rule the zone follows:
PST = UTC−8, switching to PDT = UTC−7 from 2:00 local on the second Sunday of
March (10:00 UTC) until 2:00 PDT on the first Sunday of November (9:00 UTC).
`astimezone` resolves the offset from the UTC instant, as modelled here. -/
def laOffsetSeconds (u : Int) : Int :=
  if (firstSundayOnOrAfter (ymd2ord (ord2ymd (u / 86400000000 + epochOrdinal)).1 3 1
        - epochOrdinal) + 7) * 86400000000 + 36000000000 ≤ u ∧
     u < firstSundayOnOrAfter (ymd2ord (ord2ymd (u / 86400000000 + epochOrdinal)).1 11 1
        - epochOrdinal) * 86400000000 + 32400000000
  then -25200 else -28800

/-- `dt.astimezone(LOCAL_TZ)`: the instant is preserved and the civil fields
are reprojected into the target zone — in the instant-plus-offset
representation, exactly a change of offset. -/
def astimezoneLocal (dt : PyDatetime) : PyDatetime := ⟨dt.u, laOffsetSeconds dt.u⟩

/-- `.date()` of an aware datetime: the civil day of its local wall-clock
reading, as an epoch day number. -/
def pyDatetimeDate (dt : PyDatetime) : Int := (dt.u + dt.off * 1000000) / 86400000000

/-- `local_dt_from_rfc3339` (src/app.py:46-50): `None`/empty input yields
`None` (`if not ts`); otherwise
`datetime.fromisoformat(ts.replace("Z", "+00:00")).astimezone(LOCAL_TZ)`,
where a malformed timestamp raises `ValueError` (modelled as `Except.error`,
the exception propagating to the caller). -/
def local_dt_from_rfc3339 (ts : Option String) : Except String (Option PyDatetime) :=
  match ts with
  | none => .ok none
  | some s =>
    if s = "" then .ok none
    else
      match fromisoformatChars (replaceZ s.data) with
      | none => .error "ValueError"
      | some dtUtc => .ok (some (astimezoneLocal dtUtc))

/-- `local_date_from_rfc3339` (src/app.py:39-43): as `local_dt_from_rfc3339`
but returning `.date()` of the local datetime. -/
def local_date_from_rfc3339 (ts : Option String) : Except String (Option Int) :=
  match ts with
  | none => .ok none
  | some s =>
    if s = "" then .ok none
    else
      match fromisoformatChars (replaceZ s.data) with
      | none => .error "ValueError"
      | some dtUtc => .ok (some (pyDatetimeDate (astimezoneLocal dtUtc)))

/-! ## Python numeric string parsing (`int`, `float`) -/

/-- Leading/trailing whitespace strip, as `int`/`float` apply to their string
argument. -/
def stripPy (cs : List Char) : List Char :=
  ((cs.dropWhile Char.isWhitespace).reverse.dropWhile Char.isWhitespace).reverse

/-- An optional leading sign: returns the sign and the remaining characters. -/
def splitSign : List Char → Int × List Char
  | '+' :: rest => (1, rest)
  | '-' :: rest => (-1, rest)
  | cs => (1, cs)

/-- Base-10 value of a digit run (defined for all-digit inputs, 0 on `[]`). -/
def intOfDigits (cs : List Char) : Int :=
  cs.foldl (fun a c => 10 * a + ((c.toNat : Int) - 48)) 0

/-- Value of a nonempty all-digit run, `none` otherwise. -/
def digitsVal (cs : List Char) : Option Int :=
  if cs ≠ [] ∧ cs.all Char.isDigit then some (intOfDigits cs) else none

/-- Python `int(s)` on decimal strings: optional surrounding whitespace, an
optional sign, then a nonempty digit run; `none` models `ValueError`.
(Pep-515 underscore separators are outside the modelled subset.) -/
def pyInt (s : String) : Option Int :=
  match splitSign (stripPy s.data) with
  | (sg, ds) =>
    match digitsVal ds with
    | some n => some (sg * n)
    | none => none

/-- Mantissa of a float literal: `digits`, `digits.digits`, `digits.`, or
`.digits` (at least one digit overall). -/
def pyFloatMantissa (cs : List Char) : Option Rat :=
  match cs.span (fun c => !(c == '.')) with
  | (ip, rest) =>
    match rest with
    | [] =>
      match digitsVal ip with
      | some n => some (n : Rat)
      | none => none
    | _ :: frac =>
      if ip.all Char.isDigit ∧ frac.all Char.isDigit ∧ (ip ≠ [] ∨ frac ≠ []) then
        some ((intOfDigits ip : Rat) + (intOfDigits frac : Rat) / (10 : Rat) ^ frac.length)
      else none

/-- Python `float(s)` on decimal literals: optional surrounding whitespace,
optional sign, mantissa, optional `e`/`E` exponent with optional sign; `none`
models `ValueError`.  Exact rational arithmetic stands in for IEEE doubles —
on the small integral quantities this pipeline handles the two agree.  The
`inf`/`nan` names and underscore separators are outside the modelled
subset. -/
def pyFloat (s : String) : Option Rat :=
  match splitSign (stripPy s.data) with
  | (sg, cs1) =>
    match cs1.span (fun c => !(c == 'e') && !(c == 'E')) with
    | (mant, expPart) =>
      match pyFloatMantissa mant with
      | none => none
      | some v =>
        match expPart with
        | [] => some ((sg : Rat) * v)
        | _ :: erest =>
          match splitSign erest with
          | (esg, eds) =>
            match digitsVal eds with
            | some e =>
              some ((sg : Rat) * v *
                (if 0 ≤ esg * e then (10 : Rat) ^ (esg * e).toNat
                 else 1 / (10 : Rat) ^ (-(esg * e)).toNat))
            | none => none

/-! ## The Square order data model

The upstream JSON objects are dictionaries accessed with `.get`; each is
modelled as a record of `Option`-typed fields (`none` = key absent or JSON
null), restricted to the keys the code reads. -/

structure Recipient where
  display_name : Option String
  given_name : Option String
  family_name : Option String
  email_address : Option String
  phone_number : Option String
deriving DecidableEq

/-- `recipient.get(...)` on a missing recipient dictionary (`or {}`). -/
def emptyRecipient : Recipient := ⟨none, none, none, none, none⟩

structure PickupDetails where
  pickup_at : Option String
  recipient : Option Recipient
deriving DecidableEq

/-- `f.get("pickup_details") or {}`. -/
def emptyPickupDetails : PickupDetails := ⟨none, none⟩

structure Fulfillment where
  type : Option String
  pickup_details : Option PickupDetails
deriving DecidableEq

structure LineItem where
  name : Option String
  variation_name : Option String
  quantity : Option String
deriving DecidableEq

structure Order where
  state : Option String
  fulfillments : Option (List Fulfillment)
  line_items : Option (List LineItem)
deriving DecidableEq

/-! ## Sort relations (pandas `sort_values` ascending, `NaN` last)

pandas compares the string cells of object columns with Python string
comparison: lexicographic by code point.  That order is implemented here
directly on the character lists. -/

/-- Python string `<`: lexicographic comparison by code point. -/
def strLtb : List Char → List Char → Bool
  | [], [] => false
  | [], _ :: _ => true
  | _ :: _, [] => false
  | a :: as, b :: bs =>
    if a.toNat < b.toNat then true
    else if b.toNat < a.toNat then false
    else strLtb as bs

theorem strLtb_asymm (as bs : List Char) (h : strLtb as bs = true) :
    strLtb bs as = false := by
  induction as generalizing bs with
  | nil =>
    rcases bs with _ | ⟨b, bs⟩
    · simp [strLtb] at h
    · simp [strLtb]
  | cons a as ih =>
    rcases bs with _ | ⟨b, bs⟩
    · simp [strLtb] at h
    · simp only [strLtb] at h ⊢
      split_ifs at h ⊢ <;> first | rfl | omega | exact ih bs h | simp_all

theorem strLtb_connex (as bs : List Char) (h : strLtb as bs = false) :
    strLtb bs as = true ∨ as = bs := by
  induction as generalizing bs with
  | nil =>
    rcases bs with _ | ⟨b, bs⟩
    · exact Or.inr rfl
    · simp [strLtb] at h
  | cons a as ih =>
    rcases bs with _ | ⟨b, bs⟩
    · simp [strLtb]
    · simp only [strLtb] at h ⊢
      by_cases hab : a.toNat < b.toNat
      · rw [if_pos hab] at h
        exact absurd h (by simp)
      · rw [if_neg hab] at h
        by_cases hba : b.toNat < a.toNat
        · rw [if_pos hba]
          exact Or.inl rfl
        · rw [if_neg hba] at h
          rw [if_neg hba, if_neg hab]
          rcases ih bs h with h2 | h2
          · exact Or.inl h2
          · have hnum : a.toNat = b.toNat := by omega
            have hcc : a = b := Char.eq_of_val_eq (UInt32.ext hnum)
            exact Or.inr (by rw [hcc, h2])

theorem strLtb_trans (as bs cs : List Char) (h1 : strLtb as bs = true)
    (h2 : strLtb bs cs = true) : strLtb as cs = true := by
  induction as generalizing bs cs with
  | nil =>
    rcases bs with _ | ⟨b, bs⟩
    · simp [strLtb] at h1
    · rcases cs with _ | ⟨c, cs⟩
      · simp [strLtb] at h2
      · simp [strLtb]
  | cons a as ih =>
    rcases bs with _ | ⟨b, bs⟩
    · simp [strLtb] at h1
    · rcases cs with _ | ⟨c, cs⟩
      · simp [strLtb] at h2
      · simp only [strLtb] at h1 h2 ⊢
        split_ifs at h1 h2 ⊢ <;> first | rfl | omega | exact ih bs cs h1 h2 | simp_all

/-- Python string `<` on `String`. -/
def pyStrLT (a b : String) : Prop := strLtb a.data b.data = true

/-- Python string `<=` on `String` (the negation of `>` in this total
order). -/
def pyStrLE (a b : String) : Prop := strLtb b.data a.data = false

instance (a b : String) : Decidable (pyStrLT a b) := by unfold pyStrLT; infer_instance

instance (a b : String) : Decidable (pyStrLE a b) := by unfold pyStrLE; infer_instance

theorem pyStr_ext (a b : String) (h : a.data = b.data) : a = b := by
  cases a
  cases b
  simp_all

/-- Strict component order: present values by string order, every present
value before an absent (`NaN`) one, as pandas sorts with `na_position`
`last`. -/
def optStrLT (a b : Option String) : Prop :=
  match a, b with
  | some x, some y => pyStrLT x y
  | some _, none => True
  | none, some _ => False
  | none, none => False

/-- Reflexive component order, absent values last. -/
def optStrLE (a b : Option String) : Prop :=
  match a, b with
  | some x, some y => pyStrLE x y
  | some _, none => True
  | none, some _ => False
  | none, none => True

instance (a b : Option String) : Decidable (optStrLT a b) := by
  rcases a with _ | x <;> rcases b with _ | y <;> simp only [optStrLT] <;> infer_instance

instance (a b : Option String) : Decidable (optStrLE a b) := by
  rcases a with _ | x <;> rcases b with _ | y <;> simp only [optStrLE] <;> infer_instance

theorem optStrLE_total (a b : Option String) : optStrLE a b ∨ optStrLE b a := by
  rcases a with _ | x <;> rcases b with _ | y <;> simp only [optStrLE] <;> try trivial
  unfold pyStrLE
  cases h : strLtb x.data y.data
  · exact Or.inr rfl
  · exact Or.inl (strLtb_asymm _ _ h)

theorem optStrLT_trichotomy (a b : Option String) : optStrLT a b ∨ a = b ∨ optStrLT b a := by
  rcases a with _ | x <;> rcases b with _ | y <;> simp only [optStrLT] <;> try tauto
  unfold pyStrLT
  cases h : strLtb x.data y.data
  · rcases strLtb_connex _ _ h with h2 | h2
    · exact Or.inr (Or.inr h2)
    · exact Or.inr (Or.inl (by rw [pyStr_ext x y h2]))
  · exact Or.inl rfl

theorem optStrLT_trans (a b c : Option String) (h1 : optStrLT a b) (h2 : optStrLT b c) :
    optStrLT a c := by
  rcases a with _ | x <;> rcases b with _ | y <;> rcases c with _ | z <;>
    simp only [optStrLT] at h1 h2 ⊢ <;> try trivial
  exact strLtb_trans _ _ _ h1 h2

theorem optStrLE_trans (a b c : Option String) (h1 : optStrLE a b) (h2 : optStrLE b c) :
    optStrLE a c := by
  rcases a with _ | x <;> rcases b with _ | y <;> rcases c with _ | z <;>
    simp only [optStrLE] at h1 h2 ⊢ <;> try trivial
  unfold pyStrLE at h1 h2 ⊢
  by_contra hlt
  rw [Bool.not_eq_false] at hlt
  rcases strLtb_connex _ _ h2 with h2c | h2c
  · exact absurd (strLtb_trans _ _ _ h2c hlt) (by simp [h1])
  · rw [h2c] at hlt
    rw [h1] at hlt
    exact absurd hlt (by simp)

theorem optStrLT_le (a b : Option String) (h : optStrLT a b) : optStrLE a b := by
  rcases a with _ | x <;> rcases b with _ | y <;>
    simp only [optStrLT, optStrLE] at h ⊢ <;> try trivial
  exact strLtb_asymm _ _ h

/-- Group-key order for the production table: ascending by item name, then
variation name, absent (`NaN`) keys last — the order of pandas
`groupby(sort=True)` followed by `sort_values(["Item Name", "Variation
Name"])`. -/
def prodKeyLE (a b : Option String × Option String) : Prop :=
  optStrLT a.1 b.1 ∨ (a.1 = b.1 ∧ optStrLE a.2 b.2)

instance (a b : Option String × Option String) : Decidable (prodKeyLE a b) := by
  unfold prodKeyLE; infer_instance

instance : IsTotal (Option String × Option String) prodKeyLE where
  total := by
    intro a b
    rcases optStrLT_trichotomy a.1 b.1 with h | h | h
    · exact Or.inl (Or.inl h)
    · rcases optStrLE_total a.2 b.2 with h2 | h2
      · exact Or.inl (Or.inr ⟨h, h2⟩)
      · exact Or.inr (Or.inr ⟨h.symm, h2⟩)
    · exact Or.inr (Or.inl h)

instance : IsTrans (Option String × Option String) prodKeyLE where
  trans := by
    intro a b c h1 h2
    rcases h1 with h1 | ⟨h1e, h1le⟩
    · rcases h2 with h2 | ⟨h2e, _⟩
      · exact Or.inl (optStrLT_trans _ _ _ h1 h2)
      · exact Or.inl (h2e ▸ h1)
    · rcases h2 with h2 | ⟨h2e, h2le⟩
      · exact Or.inl (h1e ▸ h2)
      · exact Or.inr ⟨h1e.trans h2e, optStrLE_trans _ _ _ h1le h2le⟩

/-! ## Day bucketing (`split_orders_by_pickup_date`, src/app.py:123-146) -/

/-- `target_days = [local_today() + timedelta(days=i) for i in range(days)]`,
with the ambient `local_today()` passed in as `today`. -/
def target_days (today : Int) (days : Nat) : List Int :=
  (List.range days).map (fun i => today + (i : Int))

/-- The inner fulfillment loop of `split_orders_by_pickup_date` for one order
`o`: walk the fulfillments, skip non-pickup ones, resolve each pickup date
(propagating the uncaught `ValueError` of a malformed timestamp), and append
`o` to a date's bucket when the date is a key of `grouped` (exactly the
target days) and not yet in this order's `added_dates`.  A `None` pickup date
(null/empty `pickup_at`) fails the `pickup_date in grouped` test in Python
since the keys are dates; here it is the explicit skip case. -/
def splitFulfill (tds : List Int) (o : Order) :
    List Fulfillment → (Int → List Order) → List Int →
    Except String ((Int → List Order) × List Int)
  | [], grouped, added => .ok (grouped, added)
  | f :: fs, grouped, added =>
    if f.type ≠ some "PICKUP" then splitFulfill tds o fs grouped added
    else
      match local_date_from_rfc3339 ((f.pickup_details.getD emptyPickupDetails).pickup_at) with
      | .error e => .error e
      | .ok none => splitFulfill tds o fs grouped added
      | .ok (some pickup_date) =>
        if pickup_date ∈ tds ∧ pickup_date ∉ added then
          splitFulfill tds o fs
            (fun x => if x = pickup_date then grouped x ++ [o] else grouped x)
            (pickup_date :: added)
        else splitFulfill tds o fs grouped added

/-- The outer order loop: each order starts with a fresh `added_dates` set. -/
def splitOrders (tds : List Int) : List Order → (Int → List Order) →
    Except String (Int → List Order)
  | [], grouped => .ok grouped
  | o :: os, grouped =>
    match splitFulfill tds o (o.fulfillments.getD []) grouped [] with
    | .error e => .error e
    | .ok gp => splitOrders tds os gp.1

/-- `split_orders_by_pickup_date` (src/app.py:123-146).  The
`grouped: dict[date, list]` initialised as `{d: [] for d in target_days}` is
modelled as a function from dates to buckets, initially constantly `[]`; its
key set is exactly `target_days`, so the `pickup_date in grouped` test is
membership in `target_days`, and dates outside the target list keep the empty
bucket. -/
def split_orders_by_pickup_date (orders : List Order) (today : Int) (days : Nat := 7) :
    Except String (Int → List Order) :=
  splitOrders (target_days today days) orders (fun _ => [])

/-! ## Line-item flattening (`orders_to_lineitem_df`, src/app.py:149-221) -/

/-- One flattened line-item row (the dataframe columns of src/app.py:199-207).
The `Item Quantity` column holds `float(...)` results with `None` for
unparseable strings; the later `pd.to_numeric(..., errors="coerce")` maps
`None` to `NaN` and keeps the floats, i.e. it is the identity on this
`Option`-valued column. -/
structure Row where
  fulfillmentTime : Option String
  recipientName : Option String
  recipientEmail : Option String
  recipientPhone : Option String
  itemName : Option String
  variationName : Option String
  itemQuantity : Option Rat
deriving DecidableEq

/-- `pickup_dt_local.strftime("%Y-%m-%d %H:%M")`: the local wall-clock fields
of the aware datetime, minute resolution. -/
def strftimeMinute (dt : PyDatetime) : String :=
  ⟨fmt4 (ord2ymd ((dt.u + dt.off * 1000000) / 86400000000 + epochOrdinal)).1
    ++ '-' :: fmt2 (ord2ymd ((dt.u + dt.off * 1000000) / 86400000000 + epochOrdinal)).2.1
    ++ '-' :: fmt2 (ord2ymd ((dt.u + dt.off * 1000000) / 86400000000 + epochOrdinal)).2.2
    ++ ' ' :: fmt2 ((dt.u + dt.off * 1000000) % 86400000000 / 3600000000)
    ++ ':' :: fmt2 ((dt.u + dt.off * 1000000) % 86400000000 / 60000000 % 60)⟩

/-- Python `sep.join(parts)`. -/
def pyJoin (sep : String) : List String → String
  | [] => ""
  | [s] => s
  | s :: rest => s ++ sep ++ pyJoin sep rest

/-- The fallback branch of recipient-name resolution
(src/app.py:173-175, src/main.py:75-80):
`" ".join([p for p in [given_name, family_name] if p]) or None` — the list
comprehension drops falsy entries (`None` and `""`), and the empty join (a
falsy `""`) becomes `None`. -/
def resolveNameFallback (r : Recipient) : Option String :=
  if pyJoin " " (([r.given_name, r.family_name].filterMap id).filter (fun s => !(s == ""))) = ""
  then none
  else some (pyJoin " " (([r.given_name, r.family_name].filterMap id).filter (fun s => !(s == ""))))

/-- Recipient-name resolution, shared verbatim between the two variants
(src/app.py:171-175, src/main.py:73-81): the display name when truthy
(present and nonempty), else the joined given/family fallback. -/
def resolveRecipientName (r : Recipient) : Option String :=
  match r.display_name with
  | some s => if s = "" then resolveNameFallback r else some s
  | none => resolveNameFallback r

/-- The row constructed for one line item (src/app.py:180-197):
`qty_str = li.get("quantity", "0")` — the default applies only when the key
is missing — then `float(qty_str)` with `ValueError` caught to `None`. -/
def buildRowApp (fulfillment_time recipient_name recipient_email recipient_phone : Option String)
    (li : LineItem) : Row :=
  { fulfillmentTime := fulfillment_time
    recipientName := recipient_name
    recipientEmail := recipient_email
    recipientPhone := recipient_phone
    itemName := li.name
    variationName := li.variation_name
    itemQuantity := pyFloat (li.quantity.getD "0") }

/-- The fulfillment loop of `orders_to_lineitem_df`: skip non-pickup
fulfillments, resolve the local pickup datetime (`None` stays `None`, a
malformed timestamp raises), format it, resolve the recipient, and emit one
row per line item of the order. -/
def rowsFromFulfillments (line_items : List LineItem) :
    List Fulfillment → Except String (List Row)
  | [] => .ok []
  | f :: fs =>
    if f.type ≠ some "PICKUP" then rowsFromFulfillments line_items fs
    else
      match local_dt_from_rfc3339 ((f.pickup_details.getD emptyPickupDetails).pickup_at) with
      | .error e => .error e
      | .ok pdt =>
        match rowsFromFulfillments line_items fs with
        | .error e => .error e
        | .ok rest =>
          .ok ((line_items.map (buildRowApp (pdt.map strftimeMinute)
              (resolveRecipientName
                ((f.pickup_details.getD emptyPickupDetails).recipient.getD emptyRecipient))
              ((f.pickup_details.getD emptyPickupDetails).recipient.getD
                emptyRecipient).email_address
              ((f.pickup_details.getD emptyPickupDetails).recipient.getD
                emptyRecipient).phone_number)) ++ rest)

/-- The order loop of `orders_to_lineitem_df`. -/
def rowsFromOrders : List Order → Except String (List Row)
  | [] => .ok []
  | o :: os =>
    match rowsFromFulfillments (o.line_items.getD []) (o.fulfillments.getD []) with
    | .error e => .error e
    | .ok rs =>
      match rowsFromOrders os with
      | .error e => .error e
      | .ok rest => .ok (rs ++ rest)

/-- Row order of the final
`sort_values(["_fulfillment_time_dt", "Recipient Name", "Item Name",
"Variation Name"])` (src/app.py:216-219).  The sort key column is
`pd.to_datetime` of the `"%Y-%m-%d %H:%M"` string; those fixed-width decimal
strings order chronologically exactly as strings, and `NaT` (absent) sorts
last like pandas `NaN`. -/
def rowLE (a b : Row) : Prop :=
  optStrLT a.fulfillmentTime b.fulfillmentTime ∨
    (a.fulfillmentTime = b.fulfillmentTime ∧
      (optStrLT a.recipientName b.recipientName ∨
        (a.recipientName = b.recipientName ∧
          (optStrLT a.itemName b.itemName ∨
            (a.itemName = b.itemName ∧ optStrLE a.variationName b.variationName)))))

instance (a b : Row) : Decidable (rowLE a b) := by unfold rowLE; infer_instance

/-- `orders_to_lineitem_df` (src/app.py:149-221): collect the rows, then sort
them for the pickup schedule.  An empty row list yields the empty (but fully
columned) dataframe — here simply `[]`. -/
def orders_to_lineitem_df (orders : List Order) : Except String (List Row) :=
  match rowsFromOrders orders with
  | .error e => .error e
  | .ok rows => .ok (List.insertionSort rowLE rows)

/-! ## Production aggregation (`kitchen_production_table`, src/app.py:224-237) -/

/-- One row of the kitchen production sheet. -/
structure ProdRow where
  itemName : Option String
  variationName : Option String
  itemQuantity : Rat
deriving DecidableEq

/-- The grouped sum `df.groupby([...], dropna=False)["Item Quantity"].sum()`
for one group key: pandas `sum` skips `NaN` (absent) quantities, and a group
whose quantities are all absent sums to `0.0`. -/
def groupQuantitySum (df : List Row) (k : Option String × Option String) : Rat :=
  ((df.filter (fun r => decide ((r.itemName, r.variationName) = k))).filterMap
    (fun r => r.itemQuantity)).sum

/-- `kitchen_production_table` (src/app.py:224-237): on a non-empty frame,
group by `(Item Name, Variation Name)` with `dropna=False` (absent components
form their own groups), sum quantities per group, and sort ascending by the
two name columns with absent keys last.  The distinct keys are taken with
`dedup`; sorting makes the result independent of which duplicate occurrence
survives. -/
def kitchen_production_table (df : List Row) : List ProdRow :=
  match df with
  | [] => []
  | _ =>
    (List.insertionSort prodKeyLE
        ((df.map (fun r => (r.itemName, r.variationName))).dedup)).map
      (fun k => ⟨k.1, k.2, groupQuantitySum df k⟩)

/-! ## Paginated fetch (`fetch_recent_pickup_orders`, src/app.py:62-120) -/

/-- One page returned by the Square `search_orders` endpoint: the orders plus
the optional continuation cursor (`body.get("cursor")`). -/
structure SquarePage where
  orders : List Order
  cursor : Option String
deriving DecidableEq

/-- A `search_orders` response: a page, or an upstream error list
(`result.is_error()`). -/
inductive SquareResponse where
  | success : SquarePage → SquareResponse
  | failure : String → SquareResponse
deriving DecidableEq

/-- The `while True` pagination loop, consuming the upstream's successive
responses in order: an error response raises `RuntimeError(result.errors)`
immediately (discarding `all_orders`); a page's non-draft orders
(`o.get("state") != "DRAFT"`) are appended; a falsy cursor (absent or empty)
breaks the loop, a truthy one requests the next page. -/
def fetchLoop (acc : List Order) : List SquareResponse → Except String (List Order)
  | [] => .ok acc
  | .failure e :: _ => .error e
  | .success page :: rest =>
    match page.cursor with
    | none => .ok (acc ++ page.orders.filter (fun o => decide (o.state ≠ some "DRAFT")))
    | some c =>
      if c = "" then .ok (acc ++ page.orders.filter (fun o => decide (o.state ≠ some "DRAFT")))
      else fetchLoop (acc ++ page.orders.filter (fun o => decide (o.state ≠ some "DRAFT"))) rest

/-- `fetch_recent_pickup_orders` (src/app.py:62-120), abstracted over the
upstream: the network interaction is the finite list of responses
`search_orders` hands back to the client's successive requests (the filter
body built at lines 79-104 — update-time window, pickup type, non-canceled
states — configures the upstream and does not affect the client-side loop
semantics modelled here). -/
def fetch_recent_pickup_orders (responses : List SquareResponse) : Except String (List Order) :=
  fetchLoop [] responses

/-! ## The `main.py` variant (`build_dataframe_from_orders`, src/main.py:55-103) -/

/-- One row of the `main.py` dataframe: `Fulfillment Date` is the local aware
datetime itself, and the quantity is numeric (this variant raises rather than
storing `None`). -/
structure MainRow where
  fulfillmentDate : PyDatetime
  recipientName : Option String
  recipientEmail : Option String
  recipientPhone : Option String
  itemName : Option String
  itemQuantity : Rat
deriving DecidableEq

/-- Python `x or default` on an optional string: the default replaces a falsy
(`None` or empty) value. -/
def pyOrStr (o : Option String) (dflt : String) : String :=
  match o with
  | none => dflt
  | some s => if s = "" then dflt else s

/-- The quantity parse of src/main.py:88-92: `int(qty_str)`, falling back to
`float(qty_str)` on `ValueError` — whose own `ValueError` on a string that is
neither is NOT caught and propagates out of the flattening. -/
def parseQtyMain (qty_str : String) : Except String Rat :=
  match pyInt qty_str with
  | some n => .ok (n : Rat)
  | none =>
    match pyFloat qty_str with
    | some q => .ok q
    | none => .error "ValueError"

/-- The line-item loop of `build_dataframe_from_orders`
(`qty_str = li.get("quantity") or "0"`). -/
def mainRowsForItems (dtLocal : PyDatetime) (rn re rp : Option String) :
    List LineItem → Except String (List MainRow)
  | [] => .ok []
  | li :: lis =>
    match parseQtyMain (pyOrStr li.quantity "0") with
    | .error e => .error e
    | .ok q =>
      match mainRowsForItems dtLocal rn re rp lis with
      | .error e => .error e
      | .ok rest => .ok (⟨dtLocal, rn, re, rp, li.name, q⟩ :: rest)

/-- The fulfillment loop of `build_dataframe_from_orders`: no
fulfillment-type filter in this variant; a falsy `pickup_at` is skipped
(`continue`), a malformed one raises out of `fromisoformat`. -/
def mainRowsFromFulfillments (line_items : List LineItem) :
    List Fulfillment → Except String (List MainRow)
  | [] => .ok []
  | f :: fs =>
    match (f.pickup_details.getD emptyPickupDetails).pickup_at with
    | none => mainRowsFromFulfillments line_items fs
    | some s =>
      if s = "" then mainRowsFromFulfillments line_items fs
      else
        match fromisoformatChars (replaceZ s.data) with
        | none => .error "ValueError"
        | some dtUtc =>
          match mainRowsForItems (astimezoneLocal dtUtc)
              (resolveRecipientName
                ((f.pickup_details.getD emptyPickupDetails).recipient.getD emptyRecipient))
              ((f.pickup_details.getD emptyPickupDetails).recipient.getD
                emptyRecipient).email_address
              ((f.pickup_details.getD emptyPickupDetails).recipient.getD
                emptyRecipient).phone_number line_items with
          | .error e => .error e
          | .ok rows =>
            match mainRowsFromFulfillments line_items fs with
            | .error e => .error e
            | .ok rest => .ok (rows ++ rest)

/-- `build_dataframe_from_orders` (src/main.py:55-103). -/
def build_dataframe_from_orders : List Order → Except String (List MainRow)
  | [] => .ok []
  | o :: os =>
    match mainRowsFromFulfillments (o.line_items.getD []) (o.fulfillments.getD []) with
    | .error e => .error e
    | .ok rs =>
      match build_dataframe_from_orders os with
      | .error e => .error e
      | .ok rest => .ok (rs ++ rest)

/-! ## Bucketing lemmas -/

deriving instance DecidableEq for Except

/-- Some fulfillment in the list is a pickup fulfillment whose local pickup
date resolves to `x`. -/
def fulfillResolves (fs : List Fulfillment) (x : Int) : Prop :=
  ∃ f ∈ fs, f.type = some "PICKUP" ∧
    local_date_from_rfc3339 ((f.pickup_details.getD emptyPickupDetails).pickup_at) = .ok (some x)

instance (fs : List Fulfillment) (x : Int) : Decidable (fulfillResolves fs x) := by
  unfold fulfillResolves; infer_instance

/-- The order `o` has a pickup fulfillment resolving to local date `x`. -/
def resolvesTo (o : Order) (x : Int) : Prop :=
  fulfillResolves (o.fulfillments.getD []) x

instance (o : Order) (x : Int) : Decidable (resolvesTo o x) := by
  unfold resolvesTo; infer_instance

theorem fulfillResolves_cons (f : Fulfillment) (fs : List Fulfillment) (x : Int) :
    fulfillResolves (f :: fs) x ↔
      (f.type = some "PICKUP" ∧
        local_date_from_rfc3339 ((f.pickup_details.getD emptyPickupDetails).pickup_at)
          = .ok (some x)) ∨ fulfillResolves fs x := by
  simp [fulfillResolves]

theorem splitFulfill_count (tds : List Int) (o : Order) (fs : List Fulfillment)
    (g : Int → List Order) (added : List Int) (g2 : Int → List Order) (added2 : List Int)
    (h : splitFulfill tds o fs g added = .ok (g2, added2)) (p : Order) (x : Int) :
    (g2 x).count p = (g x).count p +
      (if p = o ∧ x ∈ tds ∧ x ∉ added ∧ fulfillResolves fs x then 1 else 0) := by
  induction fs generalizing g added with
  | nil =>
    simp only [splitFulfill, Except.ok.injEq, Prod.mk.injEq] at h
    obtain ⟨hg, _⟩ := h
    subst hg
    simp [fulfillResolves]
  | cons f fs ih =>
    simp only [splitFulfill] at h
    by_cases hty : f.type ≠ some "PICKUP"
    · rw [if_pos hty] at h
      rw [ih g added h]
      have hiff : (p = o ∧ x ∈ tds ∧ x ∉ added ∧ fulfillResolves (f :: fs) x) ↔
          (p = o ∧ x ∈ tds ∧ x ∉ added ∧ fulfillResolves fs x) := by
        rw [fulfillResolves_cons]
        tauto
      rw [if_congr hiff rfl rfl]
    · rw [if_neg hty] at h
      push_neg at hty
      rcases hld : local_date_from_rfc3339
          ((f.pickup_details.getD emptyPickupDetails).pickup_at) with e | od
      · rw [hld] at h; exact absurd h (by simp)
      · rw [hld] at h
        rcases od with _ | pd
        · replace h : splitFulfill tds o fs g added = Except.ok (g2, added2) := h
          rw [ih g added h]
          have hiff : (p = o ∧ x ∈ tds ∧ x ∉ added ∧ fulfillResolves (f :: fs) x) ↔
              (p = o ∧ x ∈ tds ∧ x ∉ added ∧ fulfillResolves fs x) := by
            rw [fulfillResolves_cons]
            constructor
            · rintro ⟨h1, h2, h3, (⟨_, hres⟩ | h4)⟩
              · rw [hld] at hres; exact absurd hres (by simp)
              · exact ⟨h1, h2, h3, h4⟩
            · tauto
          rw [if_congr hiff rfl rfl]
        · have hres_cons : ∀ z, fulfillResolves (f :: fs) z ↔ z = pd ∨ fulfillResolves fs z := by
            intro z
            rw [fulfillResolves_cons]
            constructor
            · rintro (⟨_, hres⟩ | h4)
              · rw [hld] at hres
                simp only [Except.ok.injEq, Option.some.injEq] at hres
                exact Or.inl hres.symm
              · exact Or.inr h4
            · rintro (rfl | h4)
              · exact Or.inl ⟨hty, hld⟩
              · exact Or.inr h4
          replace h : (if pd ∈ tds ∧ pd ∉ added then
              splitFulfill tds o fs (fun z => if z = pd then g z ++ [o] else g z) (pd :: added)
            else splitFulfill tds o fs g added) = Except.ok (g2, added2) := h
          by_cases hin : pd ∈ tds ∧ pd ∉ added
          · rw [if_pos hin] at h
            have hc := ih _ _ h
            simp only [] at hc
            by_cases hxpd : x = pd
            · subst hxpd
              have hfalse : ¬ (p = o ∧ x ∈ tds ∧ x ∉ x :: added ∧ fulfillResolves fs x) :=
                fun hcond => hcond.2.2.1 (List.mem_cons_self x added)
              rw [if_pos rfl, if_neg hfalse] at hc
              rw [hc, List.count_append]
              have h3 : (p = o ∧ x ∈ tds ∧ x ∉ added ∧ fulfillResolves (f :: fs) x) ↔ p = o := by
                constructor
                · rintro ⟨h1, _⟩; exact h1
                · intro h1
                  exact ⟨h1, hin.1, hin.2, (hres_cons x).mpr (Or.inl rfl)⟩
              rw [if_congr h3 rfl rfl]
              by_cases hpo : p = o
              · subst hpo
                rw [if_pos rfl]
                simp [List.count_singleton]
              · rw [if_neg hpo]
                have hz : [o].count p = 0 := by
                  rw [List.count_eq_zero]
                  simp [hpo]
                simp [hz]
            · rw [if_neg hxpd] at hc
              rw [hc]
              have hiff : (p = o ∧ x ∈ tds ∧ x ∉ pd :: added ∧ fulfillResolves fs x) ↔
                  (p = o ∧ x ∈ tds ∧ x ∉ added ∧ fulfillResolves (f :: fs) x) := by
                rw [hres_cons x]
                simp only [List.mem_cons]
                tauto
              rw [if_congr hiff rfl rfl]
          · rw [if_neg hin] at h
            rw [ih g added h]
            have hiff : (p = o ∧ x ∈ tds ∧ x ∉ added ∧ fulfillResolves fs x) ↔
                (p = o ∧ x ∈ tds ∧ x ∉ added ∧ fulfillResolves (f :: fs) x) := by
              rw [hres_cons x]
              constructor
              · tauto
              · rintro ⟨h1, h2, h3, (rfl | h4)⟩
                · exact absurd ⟨h2, h3⟩ hin
                · exact ⟨h1, h2, h3, h4⟩
            rw [if_congr hiff rfl rfl]

theorem splitFulfill_offTarget (tds : List Int) (o : Order) (fs : List Fulfillment)
    (g : Int → List Order) (added : List Int) (g2 : Int → List Order) (added2 : List Int)
    (h : splitFulfill tds o fs g added = .ok (g2, added2)) (x : Int) (hx : x ∉ tds) :
    g2 x = g x := by
  induction fs generalizing g added with
  | nil =>
    simp only [splitFulfill, Except.ok.injEq, Prod.mk.injEq] at h
    rw [← h.1]
  | cons f fs ih =>
    simp only [splitFulfill] at h
    by_cases hty : f.type ≠ some "PICKUP"
    · rw [if_pos hty] at h
      exact ih g added h
    · rw [if_neg hty] at h
      rcases hld : local_date_from_rfc3339
          ((f.pickup_details.getD emptyPickupDetails).pickup_at) with e | od
      · rw [hld] at h; exact absurd h (by simp)
      · rw [hld] at h
        rcases od with _ | pd
        · exact ih g added h
        · replace h : (if pd ∈ tds ∧ pd ∉ added then
              splitFulfill tds o fs (fun z => if z = pd then g z ++ [o] else g z) (pd :: added)
            else splitFulfill tds o fs g added) = Except.ok (g2, added2) := h
          by_cases hin : pd ∈ tds ∧ pd ∉ added
          · rw [if_pos hin] at h
            have hc := ih _ _ h
            simp only [] at hc
            have hxpd : x ≠ pd := fun hcontra => hx (hcontra ▸ hin.1)
            rw [if_neg hxpd] at hc
            exact hc
          · rw [if_neg hin] at h
            exact ih g added h

theorem splitOrders_count (tds : List Int) (os : List Order) (g0 g : Int → List Order)
    (h : splitOrders tds os g0 = .ok g) (p : Order) (x : Int) :
    (g x).count p = (g0 x).count p +
      os.count p * (if x ∈ tds ∧ resolvesTo p x then 1 else 0) := by
  induction os generalizing g0 with
  | nil =>
    simp only [splitOrders, Except.ok.injEq] at h
    subst h
    simp
  | cons o os ih =>
    simp only [splitOrders] at h
    rcases hsf : splitFulfill tds o (o.fulfillments.getD []) g0 [] with e | gp
    · rw [hsf] at h; exact absurd h (by simp)
    · rw [hsf] at h
      replace h : splitOrders tds os gp.1 = .ok g := h
      have hgp : splitFulfill tds o (o.fulfillments.getD []) g0 [] = .ok (gp.1, gp.2) := hsf
      have hcount := splitFulfill_count tds o _ g0 [] gp.1 gp.2 hgp p x
      have hnil : (p = o ∧ x ∈ tds ∧ x ∉ ([] : List Int)
          ∧ fulfillResolves (o.fulfillments.getD []) x) ↔
          (p = o ∧ x ∈ tds ∧ fulfillResolves (o.fulfillments.getD []) x) := by
        simp
      rw [if_congr hnil rfl rfl] at hcount
      rw [ih gp.1 h, hcount, List.count_cons]
      simp only [beq_iff_eq]
      unfold resolvesTo
      by_cases hpo : p = o
      · subst hpo
        rw [if_pos rfl]
        by_cases hxr : x ∈ tds ∧ fulfillResolves (p.fulfillments.getD []) x
        · rw [if_pos ⟨rfl, hxr⟩, if_pos hxr]
          ring
        · have hnc : ¬ (p = p ∧ x ∈ tds ∧ fulfillResolves (p.fulfillments.getD []) x) :=
            fun hcond => hxr hcond.2
          rw [if_neg hnc, if_neg hxr]
          ring
      · rw [if_neg (show ¬ o = p from fun hc => hpo hc.symm)]
        have hnc : ¬ (p = o ∧ x ∈ tds ∧ fulfillResolves (o.fulfillments.getD []) x) :=
          fun hcond => hpo hcond.1
        rw [if_neg hnc]
        ring

theorem splitOrders_offTarget (tds : List Int) (os : List Order) (g0 g : Int → List Order)
    (h : splitOrders tds os g0 = .ok g) (x : Int) (hx : x ∉ tds) : g x = g0 x := by
  induction os generalizing g0 with
  | nil =>
    simp only [splitOrders, Except.ok.injEq] at h
    subst h
    rfl
  | cons o os ih =>
    simp only [splitOrders] at h
    rcases hsf : splitFulfill tds o (o.fulfillments.getD []) g0 [] with e | gp
    · rw [hsf] at h; exact absurd h (by simp)
    · rw [hsf] at h
      replace h : splitOrders tds os gp.1 = .ok g := h
      have hgp : splitFulfill tds o (o.fulfillments.getD []) g0 [] = .ok (gp.1, gp.2) := hsf
      rw [ih gp.1 h, splitFulfill_offTarget _ _ _ _ _ _ _ hgp x hx]

/-- Master bucket-count identity for `split_orders_by_pickup_date`: on
success, the number of occurrences of an order in the bucket of date `x` is
its number of occurrences in the input when `x` is a target day the order's
pickup fulfillments resolve to, and `0` otherwise — in particular the bucket
count never exceeds the input count, which is the per-date dedup. -/
theorem split_orders_count (orders : List Order) (today : Int) (days : Nat)
    (g : Int → List Order) (h : split_orders_by_pickup_date orders today days = .ok g)
    (p : Order) (x : Int) :
    (g x).count p =
      orders.count p * (if x ∈ target_days today days ∧ resolvesTo p x then 1 else 0) := by
  have hc := splitOrders_count (target_days today days) orders (fun _ => []) g h p x
  simpa using hc

/-- Non-target dates keep the empty bucket. -/
theorem split_orders_offTarget (orders : List Order) (today : Int) (days : Nat)
    (g : Int → List Order) (h : split_orders_by_pickup_date orders today days = .ok g)
    (x : Int) (hx : x ∉ target_days today days) : g x = [] :=
  splitOrders_offTarget _ _ _ _ h x hx

theorem splitFulfill_total (tds : List Int) (o : Order) (fs : List Fulfillment)
    (g : Int → List Order) (added : List Int)
    (hp : ∀ f ∈ fs, f.type = some "PICKUP" →
      ∃ r, local_date_from_rfc3339 ((f.pickup_details.getD emptyPickupDetails).pickup_at)
        = .ok r) :
    ∃ gp, splitFulfill tds o fs g added = .ok gp := by
  induction fs generalizing g added with
  | nil => exact ⟨_, rfl⟩
  | cons f fs ih =>
    simp only [splitFulfill]
    by_cases hty : f.type ≠ some "PICKUP"
    · rw [if_pos hty]
      exact ih g added (fun f2 hf2 => hp f2 (List.mem_cons_of_mem f hf2))
    · rw [if_neg hty]
      push_neg at hty
      obtain ⟨r, hr⟩ := hp f (List.mem_cons_self f fs) hty
      rw [hr]
      rcases r with _ | pd
      · exact ih g added (fun f2 hf2 => hp f2 (List.mem_cons_of_mem f hf2))
      · show ∃ gp, (if pd ∈ tds ∧ pd ∉ added then
            splitFulfill tds o fs (fun z => if z = pd then g z ++ [o] else g z) (pd :: added)
          else splitFulfill tds o fs g added) = Except.ok gp
        by_cases hin : pd ∈ tds ∧ pd ∉ added
        · rw [if_pos hin]
          exact ih _ _ (fun f2 hf2 => hp f2 (List.mem_cons_of_mem f hf2))
        · rw [if_neg hin]
          exact ih g added (fun f2 hf2 => hp f2 (List.mem_cons_of_mem f hf2))

theorem splitOrders_total (tds : List Int) (os : List Order) (g0 : Int → List Order)
    (hp : ∀ o ∈ os, ∀ f ∈ o.fulfillments.getD [], f.type = some "PICKUP" →
      ∃ r, local_date_from_rfc3339 ((f.pickup_details.getD emptyPickupDetails).pickup_at)
        = .ok r) :
    ∃ g, splitOrders tds os g0 = .ok g := by
  induction os generalizing g0 with
  | nil => exact ⟨_, rfl⟩
  | cons o os ih =>
    simp only [splitOrders]
    obtain ⟨gp, hgp⟩ := splitFulfill_total tds o (o.fulfillments.getD []) g0 []
      (hp o (List.mem_cons_self o os))
    rw [hgp]
    exact ih gp.1 (fun o2 ho2 => hp o2 (List.mem_cons_of_mem o ho2))

/-- `split_orders_by_pickup_date` succeeds whenever every pickup fulfillment's
timestamp is null, empty, or well-formed — quantity strings and all other
fields never make it raise. -/
theorem split_orders_total (orders : List Order) (today : Int) (days : Nat)
    (hp : ∀ o ∈ orders, ∀ f ∈ o.fulfillments.getD [], f.type = some "PICKUP" →
      ∃ r, local_date_from_rfc3339 ((f.pickup_details.getD emptyPickupDetails).pickup_at)
        = .ok r) :
    ∃ g, split_orders_by_pickup_date orders today days = .ok g :=
  splitOrders_total _ orders _ hp

theorem splitFulfill_error (tds : List Int) (o : Order) (fs : List Fulfillment)
    (g : Int → List Order) (added : List Int)
    (hbad : ∃ f ∈ fs, f.type = some "PICKUP" ∧
      ∃ e, local_date_from_rfc3339 ((f.pickup_details.getD emptyPickupDetails).pickup_at)
        = .error e) :
    ∃ e, splitFulfill tds o fs g added = .error e := by
  induction fs generalizing g added with
  | nil => simp [fulfillResolves] at hbad
  | cons f fs ih =>
    simp only [splitFulfill]
    obtain ⟨fb, hfb, hfbty, e0, hfbe⟩ := hbad
    by_cases hty : f.type ≠ some "PICKUP"
    · rw [if_pos hty]
      rcases List.mem_cons.mp hfb with rfl | hmem
      · exact absurd hfbty hty
      · exact ih g added ⟨fb, hmem, hfbty, e0, hfbe⟩
    · rw [if_neg hty]
      rcases hld : local_date_from_rfc3339
          ((f.pickup_details.getD emptyPickupDetails).pickup_at) with e | od
      · exact ⟨e, rfl⟩
      · have hmem : fb ∈ fs := by
          rcases List.mem_cons.mp hfb with rfl | hmem
          · rw [hld] at hfbe; exact absurd hfbe (by simp)
          · exact hmem
        rcases od with _ | pd
        · exact ih g added ⟨fb, hmem, hfbty, e0, hfbe⟩
        · show ∃ e, (if pd ∈ tds ∧ pd ∉ added then
              splitFulfill tds o fs (fun z => if z = pd then g z ++ [o] else g z) (pd :: added)
            else splitFulfill tds o fs g added) = Except.error e
          by_cases hin : pd ∈ tds ∧ pd ∉ added
          · rw [if_pos hin]
            exact ih _ _ ⟨fb, hmem, hfbty, e0, hfbe⟩
          · rw [if_neg hin]
            exact ih g added ⟨fb, hmem, hfbty, e0, hfbe⟩

theorem splitOrders_error (tds : List Int) (os : List Order) (g0 : Int → List Order)
    (hbad : ∃ o ∈ os, ∃ f ∈ o.fulfillments.getD [], f.type = some "PICKUP" ∧
      ∃ e, local_date_from_rfc3339 ((f.pickup_details.getD emptyPickupDetails).pickup_at)
        = .error e) :
    ∃ e, splitOrders tds os g0 = .error e := by
  induction os generalizing g0 with
  | nil => simp at hbad
  | cons o os ih =>
    simp only [splitOrders]
    obtain ⟨ob, hob, hobbad⟩ := hbad
    rcases List.mem_cons.mp hob with rfl | hmem
    · obtain ⟨e, he⟩ := splitFulfill_error tds ob (ob.fulfillments.getD []) g0 [] hobbad
      rw [he]
      exact ⟨e, rfl⟩
    · rcases hsf : splitFulfill tds o (o.fulfillments.getD []) g0 [] with e | gp
      · exact ⟨e, rfl⟩
      · exact ih gp.1 ⟨ob, hmem, hobbad⟩

/-! ## Claim C1 -/

/-- C1: for every list of orders and every target-date window, an order
occurring once in the input that has two or more pickup fulfillments (indices
`i ≠ j`) whose local pickup dates resolve to the same target date `x` appears
exactly once in that date's bucket — the dedup key is `(order, date)`, not
`(order, fulfillment)`. -/
theorem c1_dedup_by_order_and_date (orders : List Order) (today : Int) (days : Nat)
    (g : Int → List Order) (o : Order) (x : Int) (i j : Nat)
    (hok : split_orders_by_pickup_date orders today days = .ok g)
    (honce : orders.count o = 1)
    (hx : x ∈ target_days today days)
    (hij : i ≠ j)
    (hi : i < (o.fulfillments.getD []).length)
    (hj : j < (o.fulfillments.getD []).length)
    (hfi : ((o.fulfillments.getD []).get ⟨i, hi⟩).type = some "PICKUP")
    (hfj : ((o.fulfillments.getD []).get ⟨j, hj⟩).type = some "PICKUP")
    (hdi : local_date_from_rfc3339
      ((((o.fulfillments.getD []).get ⟨i, hi⟩).pickup_details.getD
        emptyPickupDetails).pickup_at) = .ok (some x))
    (hdj : local_date_from_rfc3339
      ((((o.fulfillments.getD []).get ⟨j, hj⟩).pickup_details.getD
        emptyPickupDetails).pickup_at) = .ok (some x)) :
    (g x).count o = 1 := by
  have hres : resolvesTo o x :=
    ⟨(o.fulfillments.getD []).get ⟨i, hi⟩, List.get_mem _ _ hi, hfi, hdi⟩
  rw [split_orders_count orders today days g hok o x, if_pos ⟨hx, hres⟩, honce]

/-- An order with two pickup fulfillments (18:00Z and next-day 01:00Z, both
resolving to local date 2025-11-23 = epoch day 20415). -/
def wOrderTwoPickups : Order :=
  ⟨some "OPEN",
   some [⟨some "PICKUP", some ⟨some "2025-11-23T18:00:00Z", none⟩⟩,
         ⟨some "PICKUP", some ⟨some "2025-11-24T01:00:00Z", none⟩⟩],
   some [⟨some "Bagel", none, some "3"⟩]⟩

theorem c1_witness : ∃ g, split_orders_by_pickup_date [wOrderTwoPickups] 20415 7 = .ok g ∧
    (g 20415).count wOrderTwoPickups = 1 := by
  rcases hok : split_orders_by_pickup_date [wOrderTwoPickups] 20415 7 with e | g
  · have hisok : (split_orders_by_pickup_date [wOrderTwoPickups] 20415 7).isOk = true := by
      decide
    rw [hok] at hisok
    simp [Except.isOk, Except.toBool] at hisok
  · exact ⟨g, rfl, c1_dedup_by_order_and_date [wOrderTwoPickups] 20415 7 g wOrderTwoPickups
      20415 0 1 hok (by decide) (by decide) (by decide) (by decide) (by decide)
      (by decide) (by decide) (by decide) (by decide)⟩

/-! ## Claim C2 (corrected) -/

/-- An order whose single pickup fulfillment carries a malformed (non-RFC3339)
`pickup_at` string. -/
def cMalformedOrder : Order :=
  ⟨some "OPEN", some [⟨some "PICKUP", some ⟨some "not-a-timestamp", none⟩⟩], none⟩

/-- C2 counterexample: bucketing an order with a malformed non-null
`pickup_at` does NOT silently exclude the fulfillment — the uncaught
`ValueError` from `datetime.fromisoformat` aborts `split_orders_by_pickup_date`
(and with it the pipeline run), contradicting the claim as stated. -/
theorem c2_counterexample :
    split_orders_by_pickup_date [cMalformedOrder] 20415 7 = .error "ValueError" := rfl

/-- C2 amended: for every order list containing an order with a pickup
fulfillment whose non-null, non-empty `pickup_at` fails to parse, bucketing
raises (returns an error) instead of excluding that fulfillment. -/
theorem c2_malformed_pickup_at_raises (orders : List Order) (today : Int) (days : Nat)
    (o : Order) (f : Fulfillment) (s : String)
    (ho : o ∈ orders) (hf : f ∈ o.fulfillments.getD [])
    (hty : f.type = some "PICKUP")
    (hts : (f.pickup_details.getD emptyPickupDetails).pickup_at = some s)
    (hne : s ≠ "") (hbad : fromisoformatChars (replaceZ s.data) = none) :
    ∃ e, split_orders_by_pickup_date orders today days = .error e := by
  apply splitOrders_error
  refine ⟨o, ho, f, hf, hty, "ValueError", ?_⟩
  simp only [local_date_from_rfc3339, hts, if_neg hne, hbad]

theorem c2_witness :
    cMalformedOrder ∈ [cMalformedOrder] ∧
    (∃ e, split_orders_by_pickup_date [cMalformedOrder] 20415 7 = .error e) := by
  refine ⟨by decide, ?_⟩
  exact c2_malformed_pickup_at_raises [cMalformedOrder] 20415 7 cMalformedOrder
    ⟨some "PICKUP", some ⟨some "not-a-timestamp", none⟩⟩ "not-a-timestamp"
    (by decide) (by decide) (by decide) (by decide) (by decide) (by decide)

/-! ## Claim C8 -/

/-- C8: (i) on a successful bucketing run, an order with no pickup-type
fulfillment, or whose pickup fulfillments all have a null/empty `pickup_at`,
or whose resolvable local pickup dates all fall outside the target window, is
excluded from every bucket — in particular a null `pickup_at` is never
attributed to today's (or any) bucket; (ii) such inputs never make bucketing
raise: it succeeds whenever every pickup fulfillment's timestamp is null,
empty, or well-formed. -/
theorem c8_no_pickup_or_null_or_outside_excluded :
    (∀ (orders : List Order) (today : Int) (days : Nat) (g : Int → List Order) (o : Order),
      split_orders_by_pickup_date orders today days = .ok g →
      ((∀ f ∈ o.fulfillments.getD [], f.type ≠ some "PICKUP") ∨
       (∀ f ∈ o.fulfillments.getD [], f.type = some "PICKUP" →
         ((f.pickup_details.getD emptyPickupDetails).pickup_at = none ∨
          (f.pickup_details.getD emptyPickupDetails).pickup_at = some "")) ∨
       (∀ x, resolvesTo o x → x ∉ target_days today days)) →
      ∀ x, o ∉ g x) ∧
    (∀ (orders : List Order) (today : Int) (days : Nat),
      (∀ o ∈ orders, ∀ f ∈ o.fulfillments.getD [], f.type = some "PICKUP" →
        (f.pickup_details.getD emptyPickupDetails).pickup_at = none ∨
        (f.pickup_details.getD emptyPickupDetails).pickup_at = some "" ∨
        ∃ dt, fromisoformatChars
          (replaceZ (((f.pickup_details.getD emptyPickupDetails).pickup_at).getD "").data)
          = some dt) →
      ∃ g, split_orders_by_pickup_date orders today days = .ok g) := by
  constructor
  · intro orders today days g o hok hcase x
    by_cases hx : x ∈ target_days today days
    · have hnres : ¬ resolvesTo o x := by
        rcases hcase with hc | hc | hc
        · rintro ⟨f, hf, hty, _⟩
          exact hc f hf hty
        · rintro ⟨f, hf, hty, hld⟩
          rcases hc f hf hty with hn | he
          · rw [hn] at hld
            exact absurd hld (by simp [local_date_from_rfc3339])
          · rw [he] at hld
            exact absurd hld (by simp [local_date_from_rfc3339])
        · intro hres
          exact hc x hres hx
      have hcount := split_orders_count orders today days g hok o x
      rw [if_neg (fun hcond => hnres hcond.2)] at hcount
      intro hmem
      have : (g x).count o ≠ 0 := by
        rw [Ne, List.count_eq_zero]
        exact fun hno => hno hmem
      omega
    · rw [split_orders_offTarget orders today days g hok x hx]
      exact List.not_mem_nil o
  · intro orders today days hp
    apply split_orders_total
    intro o ho f hf hty
    rcases hp o ho f hf hty with hn | he | ⟨dt, hdt⟩
    · exact ⟨none, by simp [local_date_from_rfc3339, hn]⟩
    · exact ⟨none, by simp [local_date_from_rfc3339, he]⟩
    · rcases hts : (f.pickup_details.getD emptyPickupDetails).pickup_at with _ | s
      · exact ⟨none, by simp [local_date_from_rfc3339, hts]⟩
      · by_cases hse : s = ""
        · exact ⟨none, by simp [local_date_from_rfc3339, hts, hse]⟩
        · rw [hts] at hdt
          simp only [Option.getD] at hdt
          refine ⟨some (pyDatetimeDate (astimezoneLocal dt)), ?_⟩
          simp only [local_date_from_rfc3339, if_neg hse, hdt]

/-- An order with one pickup fulfillment whose `pickup_at` is null. -/
def wNullPickupOrder : Order :=
  ⟨some "OPEN", some [⟨some "PICKUP", some ⟨none, none⟩⟩],
   some [⟨some "Bagel", none, some "1"⟩]⟩

theorem c8_witness : ∃ g, split_orders_by_pickup_date [wNullPickupOrder] 20415 7 = .ok g ∧
    ∀ x, wNullPickupOrder ∉ g x := by
  obtain ⟨g, hg⟩ := c8_no_pickup_or_null_or_outside_excluded.2 [wNullPickupOrder] 20415 7
    (by intro o ho f hf hty
        fin_cases ho
        fin_cases hf
        exact Or.inl rfl)
  refine ⟨g, hg, c8_no_pickup_or_null_or_outside_excluded.1 [wNullPickupOrder] 20415 7 g
    wNullPickupOrder hg (Or.inr (Or.inl ?_)) ⟩
  intro f hf hty
  fin_cases hf
  exact Or.inl rfl

/-! ## Flattening lemmas -/

theorem rowsFromFulfillments_length (lis : List LineItem) (fs : List Fulfillment)
    (rows : List Row) (h : rowsFromFulfillments lis fs = .ok rows) :
    rows.length = fs.countP (fun f => decide (f.type = some "PICKUP")) * lis.length := by
  induction fs generalizing rows with
  | nil =>
    simp only [rowsFromFulfillments, Except.ok.injEq] at h
    subst h
    simp
  | cons f fs ih =>
    simp only [rowsFromFulfillments] at h
    rw [List.countP_cons]
    by_cases hty : f.type ≠ some "PICKUP"
    · rw [if_pos hty] at h
      rw [ih rows h]
      have : (decide (f.type = some "PICKUP")) = false := by
        simp [hty]
      rw [this]
      simp
    · rw [if_neg hty] at h
      push_neg at hty
      rcases hld : local_dt_from_rfc3339
          ((f.pickup_details.getD emptyPickupDetails).pickup_at) with e | pdt
      · rw [hld] at h; exact absurd h (by simp)
      · rw [hld] at h
        rcases hrec : rowsFromFulfillments lis fs with e | rest
        · rw [hrec] at h; exact absurd h (by simp)
        · rw [hrec] at h
          replace h : Except.ok ((lis.map (buildRowApp (pdt.map strftimeMinute)
              (resolveRecipientName
                ((f.pickup_details.getD emptyPickupDetails).recipient.getD emptyRecipient))
              ((f.pickup_details.getD emptyPickupDetails).recipient.getD
                emptyRecipient).email_address
              ((f.pickup_details.getD emptyPickupDetails).recipient.getD
                emptyRecipient).phone_number)) ++ rest) = Except.ok rows := h
          simp only [Except.ok.injEq] at h
          subst h
          rw [List.length_append, List.length_map, ih rest hrec]
          have : (decide (f.type = some "PICKUP")) = true := by simp [hty]
          rw [this]
          simp
          ring

theorem rowsFromOrders_length (orders : List Order) (rows : List Row)
    (h : rowsFromOrders orders = .ok rows) :
    rows.length = (orders.map (fun o =>
      (o.fulfillments.getD []).countP (fun f => decide (f.type = some "PICKUP"))
        * (o.line_items.getD []).length)).sum := by
  induction orders generalizing rows with
  | nil =>
    simp only [rowsFromOrders, Except.ok.injEq] at h
    subst h
    simp
  | cons o os ih =>
    simp only [rowsFromOrders] at h
    rcases hsf : rowsFromFulfillments (o.line_items.getD []) (o.fulfillments.getD [])
        with e | rs
    · rw [hsf] at h; exact absurd h (by simp)
    · rw [hsf] at h
      rcases hrec : rowsFromOrders os with e | rest
      · rw [hrec] at h; exact absurd h (by simp)
      · rw [hrec] at h
        replace h : Except.ok (rs ++ rest) = Except.ok rows := h
        simp only [Except.ok.injEq] at h
        subst h
        rw [List.length_append, ih rest hrec, List.map_cons, List.sum_cons,
          rowsFromFulfillments_length _ _ _ hsf]

theorem rowsFromFulfillments_total (lis : List LineItem) (fs : List Fulfillment)
    (hp : ∀ f ∈ fs, f.type = some "PICKUP" →
      ∃ r, local_dt_from_rfc3339 ((f.pickup_details.getD emptyPickupDetails).pickup_at)
        = .ok r) :
    ∃ rows, rowsFromFulfillments lis fs = .ok rows := by
  induction fs with
  | nil => exact ⟨[], rfl⟩
  | cons f fs ih =>
    simp only [rowsFromFulfillments]
    by_cases hty : f.type ≠ some "PICKUP"
    · rw [if_pos hty]
      exact ih (fun f2 hf2 => hp f2 (List.mem_cons_of_mem f hf2))
    · rw [if_neg hty]
      push_neg at hty
      obtain ⟨r, hr⟩ := hp f (List.mem_cons_self f fs) hty
      rw [hr]
      obtain ⟨rest, hrest⟩ := ih (fun f2 hf2 => hp f2 (List.mem_cons_of_mem f hf2))
      rw [hrest]
      exact ⟨_, rfl⟩

theorem rowsFromOrders_total (orders : List Order)
    (hp : ∀ o ∈ orders, ∀ f ∈ o.fulfillments.getD [], f.type = some "PICKUP" →
      ∃ r, local_dt_from_rfc3339 ((f.pickup_details.getD emptyPickupDetails).pickup_at)
        = .ok r) :
    ∃ rows, rowsFromOrders orders = .ok rows := by
  induction orders with
  | nil => exact ⟨[], rfl⟩
  | cons o os ih =>
    simp only [rowsFromOrders]
    obtain ⟨rs, hrs⟩ := rowsFromFulfillments_total (o.line_items.getD [])
      (o.fulfillments.getD []) (hp o (List.mem_cons_self o os))
    rw [hrs]
    obtain ⟨rest, hrest⟩ := ih (fun o2 ho2 => hp o2 (List.mem_cons_of_mem o ho2))
    rw [hrest]
    exact ⟨_, rfl⟩

theorem orders_to_lineitem_df_total (orders : List Order)
    (hp : ∀ o ∈ orders, ∀ f ∈ o.fulfillments.getD [], f.type = some "PICKUP" →
      ∃ r, local_dt_from_rfc3339 ((f.pickup_details.getD emptyPickupDetails).pickup_at)
        = .ok r) :
    ∃ rows, orders_to_lineitem_df orders = .ok rows := by
  obtain ⟨rows, hrows⟩ := rowsFromOrders_total orders hp
  refine ⟨List.insertionSort rowLE rows, ?_⟩
  simp only [orders_to_lineitem_df, hrows]

theorem orders_to_lineitem_df_length (orders : List Order) (rows : List Row)
    (h : orders_to_lineitem_df orders = .ok rows) :
    rows.length = (orders.map (fun o =>
      (o.fulfillments.getD []).countP (fun f => decide (f.type = some "PICKUP"))
        * (o.line_items.getD []).length)).sum := by
  rcases hro : rowsFromOrders orders with e | rows0
  · simp only [orders_to_lineitem_df, hro] at h
    exact absurd h (by simp)
  · simp only [orders_to_lineitem_df, hro, Except.ok.injEq] at h
    subst h
    rw [(List.perm_insertionSort rowLE rows0).length_eq]
    exact rowsFromOrders_length orders rows0 hro

/-! ## Claim C3 (corrected) -/

/-- C3 amended: flattening emits exactly one row per (pickup fulfillment,
line item) pair — on success the row count is the sum over orders of
(number of pickup fulfillments) x (number of line items); an order with no
pickup-type fulfillment yields 0 rows without error; an order with 0 line
items yields 0 rows and no error provided each pickup fulfillment's
timestamp is null, empty, or well-formed (a malformed timestamp instead
raises, even with 0 line items — see the counterexample). -/
theorem c3_one_row_per_pickup_and_line_item :
    (∀ (orders : List Order) (rows : List Row), orders_to_lineitem_df orders = .ok rows →
      rows.length = (orders.map (fun o =>
        (o.fulfillments.getD []).countP (fun f => decide (f.type = some "PICKUP"))
          * (o.line_items.getD []).length)).sum) ∧
    (∀ o : Order, (∀ f ∈ o.fulfillments.getD [], f.type ≠ some "PICKUP") →
      orders_to_lineitem_df [o] = .ok []) ∧
    (∀ o : Order, o.line_items.getD [] = [] →
      (∀ f ∈ o.fulfillments.getD [], f.type = some "PICKUP" →
        ∃ r, local_dt_from_rfc3339 ((f.pickup_details.getD emptyPickupDetails).pickup_at)
          = .ok r) →
      orders_to_lineitem_df [o] = .ok []) := by
  refine ⟨orders_to_lineitem_df_length, ?_, ?_⟩
  · intro o hnp
    obtain ⟨rows, hr⟩ := orders_to_lineitem_df_total [o] (by
      intro o2 ho2 f hf hty
      rw [List.mem_singleton] at ho2
      subst ho2
      exact absurd hty (hnp f hf))
    have hlen := orders_to_lineitem_df_length [o] rows hr
    have hcp : (o.fulfillments.getD []).countP (fun f => decide (f.type = some "PICKUP")) = 0 := by
      rw [List.countP_eq_zero]
      intro f hf
      simp [hnp f hf]
    rw [List.map_singleton, List.sum_singleton, hcp, Nat.zero_mul] at hlen
    rw [List.length_eq_zero] at hlen
    subst hlen
    exact hr
  · intro o hli hts
    obtain ⟨rows, hr⟩ := orders_to_lineitem_df_total [o] (by
      intro o2 ho2 f hf hty
      rw [List.mem_singleton] at ho2
      subst ho2
      exact hts f hf hty)
    have hlen := orders_to_lineitem_df_length [o] rows hr
    rw [List.map_singleton, List.sum_singleton, hli] at hlen
    simp only [List.length_nil, Nat.mul_zero] at hlen
    rw [List.length_eq_zero] at hlen
    subst hlen
    exact hr

/-- An order with a malformed pickup timestamp and zero line items. -/
def cZeroItemsMalformed : Order :=
  ⟨none, some [⟨some "PICKUP", some ⟨some "not-a-timestamp", none⟩⟩], some []⟩

/-- C3 counterexample: an order with 0 line items does NOT always yield 0
rows without error — with a malformed pickup timestamp the flattening raises
`ValueError` before the (empty) line-item loop is reached, contradicting the
claim's "(or 0 line items) yields 0 rows, without error". -/
theorem c3_counterexample :
    orders_to_lineitem_df [cZeroItemsMalformed] = .error "ValueError" := rfl

/-- An order with 1 pickup fulfillment and 2 line items. -/
def wTwoItemOrder : Order :=
  ⟨some "OPEN",
   some [⟨some "PICKUP", some ⟨some "2025-11-23T18:00:00Z",
     some ⟨none, some "Jane", some "Doe", none, none⟩⟩⟩],
   some [⟨some "Bagel", none, some "3"⟩, ⟨some "Coffee", none, some "2"⟩]⟩

theorem c3_witness : ∃ rows, orders_to_lineitem_df [wTwoItemOrder] = .ok rows ∧
    rows.length = 2 := by
  rcases h : orders_to_lineitem_df [wTwoItemOrder] with e | rows
  · have hisok : (orders_to_lineitem_df [wTwoItemOrder]).isOk = true := by decide
    rw [h] at hisok
    simp [Except.isOk, Except.toBool] at hisok
  · refine ⟨rows, rfl, ?_⟩
    rw [c3_one_row_per_pickup_and_line_item.1 [wTwoItemOrder] rows h]
    decide

/-! ## Claim C4 (corrected) -/

/-- An order with a well-formed pickup timestamp and a line item whose
quantity string parses as neither `int` nor `float`. -/
def cBadQuantityOrder : Order :=
  ⟨none, some [⟨some "PICKUP", some ⟨some "2025-11-23T18:00:00Z", none⟩⟩],
   some [⟨some "Thing", none, some "abc"⟩]⟩

/-- C4 counterexample: the `main.py` flattening variant cited by the claim
does raise on an unparseable quantity — `int("abc")` fails, the fallback
`float("abc")` raises `ValueError`, and nothing catches it, contradicting
"flattening does not raise an error". -/
theorem c4_counterexample :
    build_dataframe_from_orders [cBadQuantityOrder] = .error "ValueError" := rfl

/-- C4 amended: in the `app.py` flattener an unparseable quantity string
yields a row whose quantity is absent (not zero) and never an error —
flattening fails only on malformed timestamps — and aggregation excludes the
absent quantity from every group sum; the `main.py` variant instead raises
`ValueError` on a quantity string parseable as neither `int` nor `float`. -/
theorem c4_unparseable_quantity_absent_not_error :
    (∀ (ft rn re rp : Option String) (li : LineItem) (q : String),
      li.quantity = some q → pyFloat q = none →
      (buildRowApp ft rn re rp li).itemQuantity = none) ∧
    (∀ (r : Row) (df : List Row) (k : Option String × Option String),
      r.itemQuantity = none → groupQuantitySum (r :: df) k = groupQuantitySum df k) ∧
    (∀ orders : List Order,
      (∀ o ∈ orders, ∀ f ∈ o.fulfillments.getD [], f.type = some "PICKUP" →
        ∃ r, local_dt_from_rfc3339 ((f.pickup_details.getD emptyPickupDetails).pickup_at)
          = .ok r) →
      ∃ rows, orders_to_lineitem_df orders = .ok rows) ∧
    (∀ q : String, pyInt q = none → pyFloat q = none →
      parseQtyMain q = .error "ValueError") := by
  refine ⟨?_, ?_, orders_to_lineitem_df_total, ?_⟩
  · intro ft rn re rp li q hq hbad
    simp only [buildRowApp, hq, Option.getD, hbad]
  · intro r df k hq
    simp only [groupQuantitySum, List.filter_cons]
    by_cases hk : (r.itemName, r.variationName) = k
    · rw [if_pos (by simp [hk]), List.filterMap_cons, hq]
    · rw [if_neg (by simp [hk])]
  · intro q hint hfloat
    simp only [parseQtyMain, hint, hfloat]

theorem c4_witness :
    (some "abc" : Option String) = some "abc" ∧ pyFloat "abc" = none ∧
    (buildRowApp none none none none ⟨some "Thing", none, some "abc"⟩).itemQuantity = none ∧
    parseQtyMain "abc" = .error "ValueError" := by
  refine ⟨rfl, by decide, ?_, ?_⟩
  · exact c4_unparseable_quantity_absent_not_error.1 none none none none
      ⟨some "Thing", none, some "abc"⟩ "abc" rfl (by decide)
  · exact c4_unparseable_quantity_absent_not_error.2.2.2 "abc" (by decide) (by decide)

/-! ## Claim C9 -/

/-- C9: a line item with no quantity key at all defaults to the string `"0"`
in both flatteners, so the emitted row carries the number 0, not an absent
quantity: in `app.py` (`li.get("quantity", "0")` then `float`) the row
quantity is `some 0`, and in `main.py` (`li.get("quantity") or "0"` then
`int`) the single emitted row has quantity 0. -/
theorem c9_missing_quantity_key_defaults_to_zero :
    (∀ (ft rn re rp : Option String) (li : LineItem), li.quantity = none →
      (buildRowApp ft rn re rp li).itemQuantity = some 0) ∧
    (∀ (dt : PyDatetime) (rn re rp : Option String) (li : LineItem), li.quantity = none →
      mainRowsForItems dt rn re rp [li] = .ok [⟨dt, rn, re, rp, li.name, 0⟩]) := by
  have hzero : pyFloat "0" = some 0 := by
    have h : pyFloat "0" = some (((1 : Int) : Rat) * ((0 : Int) : Rat)) := rfl
    rw [h]
    norm_num
  constructor
  · intro ft rn re rp li hq
    simp only [buildRowApp, hq, Option.getD]
    exact hzero
  · intro dt rn re rp li hq
    have h0 : parseQtyMain "0" = .ok 0 := by
      have h : parseQtyMain "0" = .ok (((1 : Int) * 0 : Int) : Rat) := rfl
      rw [h]
      norm_num
    simp only [mainRowsForItems, pyOrStr, hq, h0]

theorem c9_witness :
    (buildRowApp none none none none ⟨some "Bagel", none, none⟩).itemQuantity = some 0 ∧
    mainRowsForItems ⟨0, 0⟩ none none none [⟨some "Bagel", none, none⟩]
      = .ok [⟨⟨0, 0⟩, none, none, none, some "Bagel", 0⟩] :=
  ⟨c9_missing_quantity_key_defaults_to_zero.1 none none none none ⟨some "Bagel", none, none⟩ rfl,
   c9_missing_quantity_key_defaults_to_zero.2 ⟨0, 0⟩ none none none ⟨some "Bagel", none, none⟩ rfl⟩

/-! ## Claim C10 -/

/-- C10: recipient name resolution with no display name: when exactly one of
given/family name is truthy (present and nonempty), the resolved name is
exactly that single string — the single-element join adds no leading,
trailing, or doubled space; when both are absent (or empty), the resolved
name is `none`, never the empty string. -/
theorem c10_recipient_name_single_and_absent (r : Recipient)
    (hnd : r.display_name = none) :
    (∀ g, r.given_name = some g → g ≠ "" →
      (r.family_name = none ∨ r.family_name = some "") →
      resolveRecipientName r = some g) ∧
    (∀ fam, r.family_name = some fam → fam ≠ "" →
      (r.given_name = none ∨ r.given_name = some "") →
      resolveRecipientName r = some fam) ∧
    ((r.given_name = none ∨ r.given_name = some "") →
      (r.family_name = none ∨ r.family_name = some "") →
      resolveRecipientName r = none) := by
  refine ⟨?_, ?_, ?_⟩
  · intro g hg hgne hfam
    have hbeq : (g == "") = false := by
      simp [hgne]
    rcases hfam with hf | hf <;>
      simp [resolveRecipientName, resolveNameFallback, pyJoin, hnd, hg, hf, hbeq, hgne]
  · intro fam hfam hfne hgiven
    have hbeq : (fam == "") = false := by
      simp [hfne]
    rcases hgiven with hg | hg <;>
      simp [resolveRecipientName, resolveNameFallback, pyJoin, hnd, hg, hfam, hbeq, hfne]
  · intro hg hf
    rcases hg with hg | hg <;> rcases hf with hf | hf <;>
      simp [resolveRecipientName, resolveNameFallback, pyJoin, hnd, hg, hf]

theorem c10_witness :
    resolveRecipientName ⟨none, some "Jane", none, none, none⟩ = some "Jane" ∧
    resolveRecipientName ⟨none, none, some "Doe", none, none⟩ = some "Doe" ∧
    resolveRecipientName ⟨none, none, some "", none, none⟩ = none := by
  refine ⟨?_, ?_, ?_⟩
  · exact (c10_recipient_name_single_and_absent ⟨none, some "Jane", none, none, none⟩ rfl).1
      "Jane" rfl (by decide) (Or.inl rfl)
  · exact (c10_recipient_name_single_and_absent ⟨none, none, some "Doe", none, none⟩ rfl).2.1
      "Doe" rfl (by decide) (Or.inl rfl)
  · exact (c10_recipient_name_single_and_absent ⟨none, none, some "", none, none⟩ rfl).2.2
      (Or.inl rfl) (Or.inr rfl)

/-! ## Claim C5 -/

theorem kitchen_production_table_eq (df : List Row) :
    kitchen_production_table df =
      (List.insertionSort prodKeyLE
          ((df.map (fun r => (r.itemName, r.variationName))).dedup)).map
        (fun k => ⟨k.1, k.2, groupQuantitySum df k⟩) := by
  cases df <;> rfl

/-- The rows of the claim's example:
`[("Bagel", 3), ("Bagel", 2), ("Coffee", 1)]`. -/
def exampleRows5 : List Row :=
  [⟨none, none, none, none, some "Bagel", none, some 3⟩,
   ⟨none, none, none, none, some "Bagel", none, some 2⟩,
   ⟨none, none, none, none, some "Coffee", none, some 1⟩]

/-- C5: aggregation groups rows by (item name, variation name), sums the
quantities within each group, and returns one row per distinct item identity
(no duplicate keys; exactly the keys occurring in the input) sorted ascending
by item name then variation name; in particular the claim's example
aggregates to `[("Bagel", 5), ("Coffee", 1)]`. -/
theorem c5_groupby_sums_sorted :
    (∀ df : List Row,
      ((kitchen_production_table df).map (fun p => (p.itemName, p.variationName))).Nodup ∧
      (∀ k, k ∈ (kitchen_production_table df).map (fun p => (p.itemName, p.variationName)) ↔
        k ∈ df.map (fun r => (r.itemName, r.variationName))) ∧
      List.Sorted prodKeyLE
        ((kitchen_production_table df).map (fun p => (p.itemName, p.variationName))) ∧
      (∀ p ∈ kitchen_production_table df,
        p.itemQuantity = groupQuantitySum df (p.itemName, p.variationName))) ∧
    kitchen_production_table exampleRows5
      = [⟨some "Bagel", none, 5⟩, ⟨some "Coffee", none, 1⟩] := by
  constructor
  · intro df
    rw [kitchen_production_table_eq]
    have hkeys : ((List.insertionSort prodKeyLE
          ((df.map (fun r => (r.itemName, r.variationName))).dedup)).map
            (fun k => (⟨k.1, k.2, groupQuantitySum df k⟩ : ProdRow))).map
          (fun p => (p.itemName, p.variationName))
        = List.insertionSort prodKeyLE
            ((df.map (fun r => (r.itemName, r.variationName))).dedup) := by
      rw [List.map_map]
      have hid : ((fun p => (p.itemName, p.variationName)) ∘
          (fun k => (⟨k.1, k.2, groupQuantitySum df k⟩ : ProdRow))) = id := by
        funext k
        rfl
      rw [hid, List.map_id]
    refine ⟨?_, ?_, ?_, ?_⟩
    · rw [hkeys]
      exact ((List.perm_insertionSort prodKeyLE _).nodup_iff).mpr (List.nodup_dedup _)
    · intro k
      rw [hkeys, (List.perm_insertionSort prodKeyLE _).mem_iff, List.mem_dedup]
    · rw [hkeys]
      exact List.sorted_insertionSort prodKeyLE _
    · intro p hp
      rw [List.mem_map] at hp
      obtain ⟨k, _, rfl⟩ := hp
      rfl
  · have hkeys : List.insertionSort prodKeyLE
        ((exampleRows5.map (fun r => (r.itemName, r.variationName))).dedup)
        = [(some "Bagel", none), (some "Coffee", none)] := by decide
    have hf1 : (exampleRows5.filter
          (fun r => decide ((r.itemName, r.variationName) = (some "Bagel", none)))).filterMap
          (fun r => r.itemQuantity) = [3, 2] := by decide
    have hf2 : (exampleRows5.filter
          (fun r => decide ((r.itemName, r.variationName) = (some "Coffee", none)))).filterMap
          (fun r => r.itemQuantity) = [1] := by decide
    have hsum1 : groupQuantitySum exampleRows5 (some "Bagel", none) = 5 := by
      unfold groupQuantitySum
      rw [hf1]
      simp only [List.sum_cons, List.sum_nil]
      norm_num
    have hsum2 : groupQuantitySum exampleRows5 (some "Coffee", none) = 1 := by
      unfold groupQuantitySum
      rw [hf2]
      simp only [List.sum_cons, List.sum_nil]
      norm_num
    rw [kitchen_production_table_eq, hkeys]
    simp only [List.map_cons, List.map_nil]
    rw [hsum1, hsum2]

theorem c5_witness :
    ((kitchen_production_table exampleRows5).map
        (fun p => (p.itemName, p.variationName))).Nodup ∧
    kitchen_production_table exampleRows5
      = [⟨some "Bagel", none, 5⟩, ⟨some "Coffee", none, 1⟩] :=
  ⟨(c5_groupby_sums_sorted.1 exampleRows5).1, c5_groupby_sums_sorted.2⟩

/-! ## Claim C6 -/

/-- A truthy continuation cursor (present and nonempty — Python's
`if not cursor: break`). -/
def cursorTruthy (p : SquarePage) : Prop :=
  match p.cursor with
  | none => False
  | some c => c ≠ ""

instance (p : SquarePage) : Decidable (cursorTruthy p) := by
  unfold cursorTruthy
  cases p.cursor <;> infer_instance

/-- A well-formed response chain: every page except the last carries a truthy
cursor, and the last page's cursor is falsy (so the loop stops there). -/
def goodChain : List SquarePage → Prop
  | [] => True
  | [p] => ¬ cursorTruthy p
  | p :: rest => cursorTruthy p ∧ goodChain rest

theorem fetchLoop_cons_none (acc pords : List Order) (rest : List SquareResponse) :
    fetchLoop acc (.success ⟨pords, none⟩ :: rest)
      = .ok (acc ++ pords.filter (fun o => decide (o.state ≠ some "DRAFT"))) := rfl

theorem fetchLoop_cons_some (acc pords : List Order) (c : String) (rest : List SquareResponse) :
    fetchLoop acc (.success ⟨pords, some c⟩ :: rest)
      = if c = "" then .ok (acc ++ pords.filter (fun o => decide (o.state ≠ some "DRAFT")))
        else fetchLoop (acc ++ pords.filter (fun o => decide (o.state ≠ some "DRAFT"))) rest := rfl

theorem fetchLoop_goodChain (pages : List SquarePage) (acc : List Order)
    (h : goodChain pages) :
    fetchLoop acc (pages.map .success)
      = .ok (acc ++ pages.flatMap
          (fun p => p.orders.filter (fun o => decide (o.state ≠ some "DRAFT")))) := by
  induction pages generalizing acc with
  | nil => simp [fetchLoop]
  | cons p rest ih =>
    obtain ⟨pords, pcur⟩ := p
    rcases rest with _ | ⟨q, rest⟩
    · replace h : ¬ cursorTruthy ⟨pords, pcur⟩ := h
      rcases pcur with _ | c
      · rw [List.map_cons, List.map_nil, fetchLoop_cons_none]
        simp
      · have hce : c = "" := by
          by_contra hcne
          exact h hcne
        rw [List.map_cons, List.map_nil, fetchLoop_cons_some, if_pos hce]
        simp
    · replace h : cursorTruthy ⟨pords, pcur⟩ ∧ goodChain (q :: rest) := h
      rcases pcur with _ | c
      · exact h.1.elim
      · have hcne : ¬ c = "" := h.1
        rw [List.map_cons, fetchLoop_cons_some, if_neg hcne, ih _ h.2]
        simp [List.flatMap_cons, List.append_assoc]

theorem fetchLoop_error (good : List SquarePage) (e : String) (rest : List SquareResponse)
    (acc : List Order) (h : ∀ p ∈ good, cursorTruthy p) :
    fetchLoop acc (good.map .success ++ .failure e :: rest) = .error e := by
  induction good generalizing acc with
  | nil => rfl
  | cons p gs ih =>
    obtain ⟨pords, pcur⟩ := p
    have hpt := h ⟨pords, pcur⟩ (List.mem_cons_self _ gs)
    have hgs := fun p2 hp2 => h p2 (List.mem_cons_of_mem _ hp2)
    rcases pcur with _ | c
    · exact hpt.elim
    · rw [List.map_cons, List.cons_append, fetchLoop_cons_some, if_neg hpt]
      exact ih _ hgs

/-- C6: the fetch follows the continuation cursor page by page until it is
absent (or empty), accumulating every page's non-draft orders in order into
one sequence; and if the upstream reports an error on any page — all earlier
pages having handed out cursors — the whole fetch fails with that error and
returns no partial result. -/
theorem c6_pagination_accumulates_and_aborts :
    (∀ pages : List SquarePage, goodChain pages →
      fetch_recent_pickup_orders (pages.map .success)
        = .ok (pages.flatMap
            (fun p => p.orders.filter (fun o => decide (o.state ≠ some "DRAFT"))))) ∧
    (∀ (good : List SquarePage) (e : String) (rest : List SquareResponse),
      (∀ p ∈ good, cursorTruthy p) →
      fetch_recent_pickup_orders (good.map .success ++ .failure e :: rest) = .error e) := by
  constructor
  · intro pages h
    have hl := fetchLoop_goodChain pages [] h
    rw [List.nil_append] at hl
    exact hl
  · intro good e rest h
    exact fetchLoop_error good e rest [] h

def wDraftOrder : Order := ⟨some "DRAFT", none, none⟩
def wOpenOrder : Order := ⟨some "OPEN", none, none⟩
def wPageOne : SquarePage := ⟨[wDraftOrder, wOpenOrder], some "cursor1"⟩
def wPageTwo : SquarePage := ⟨[wOpenOrder], none⟩

theorem c6_witness :
    fetch_recent_pickup_orders [.success wPageOne, .success wPageTwo]
      = .ok [wOpenOrder, wOpenOrder] ∧
    fetch_recent_pickup_orders [.success wPageOne, .failure "UNAUTHORIZED"]
      = .error "UNAUTHORIZED" := by
  constructor
  · have h := c6_pagination_accumulates_and_aborts.1 [wPageOne, wPageTwo]
      (show cursorTruthy wPageOne ∧ ¬ cursorTruthy wPageTwo from ⟨by decide, by decide⟩)
    replace h : fetch_recent_pickup_orders [.success wPageOne, .success wPageTwo]
      = Except.ok ([wPageOne, wPageTwo].flatMap
          fun p => List.filter (fun o => decide (o.state ≠ some "DRAFT")) p.orders) := h
    rw [h]
    rfl
  · exact c6_pagination_accumulates_and_aborts.2 [wPageOne] "UNAUTHORIZED" []
      (by intro p hp
          rw [List.mem_singleton] at hp
          subst hp
          decide)

/-! ## Claim C7 -/

theorem digitChar_ne_Z (n : Int) : digitChar n ≠ 'Z' := by
  unfold digitChar
  split_ifs <;> decide

theorem fmt2_ne_Z (n : Int) : ∀ c ∈ fmt2 n, c ≠ 'Z' := by
  intro c hc
  simp only [fmt2, List.mem_cons, List.not_mem_nil, or_false] at hc
  rcases hc with rfl | rfl <;> exact digitChar_ne_Z _

theorem fmt4_ne_Z (n : Int) : ∀ c ∈ fmt4 n, c ≠ 'Z' := by
  intro c hc
  simp only [fmt4, List.mem_cons, List.not_mem_nil, or_false] at hc
  rcases hc with rfl | rfl | rfl | rfl <;> exact digitChar_ne_Z _

theorem fmt6_ne_Z (n : Int) : ∀ c ∈ fmt6 n, c ≠ 'Z' := by
  intro c hc
  simp only [fmt6, List.mem_cons, List.not_mem_nil, or_false] at hc
  rcases hc with rfl | rfl | rfl | rfl | rfl | rfl <;> exact digitChar_ne_Z _

theorem isoChars_ne_Z (u : Int) : ∀ c ∈ isoformatUTCChars u, c ≠ 'Z' := by
  intro c hc hZ
  subst hZ
  unfold isoformatUTCChars at hc
  split_ifs at hc
  all_goals simp only [List.mem_append, List.mem_cons, List.append_nil] at hc
  all_goals repeat' rcases hc with hc | hc
  all_goals first
    | exact fmt4_ne_Z _ _ hc rfl
    | exact fmt2_ne_Z _ _ hc rfl
    | exact fmt6_ne_Z _ _ hc rfl
    | exact absurd hc (by decide)
    | simp at hc

theorem replaceZ_cons (c : Char) (t : List Char) :
    replaceZ (c :: t)
      = if c = 'Z' then '+' :: '0' :: '0' :: ':' :: '0' :: '0' :: replaceZ t
        else c :: replaceZ t := rfl

theorem replaceZ_append_Z (l : List Char) (h : ∀ c ∈ l, c ≠ 'Z') :
    replaceZ (l ++ ['Z']) = l ++ ['+', '0', '0', ':', '0', '0'] := by
  induction l with
  | nil => rfl
  | cons c t ih =>
    have hc : c ≠ 'Z' := h c (List.mem_cons_self _ _)
    have ht : ∀ x ∈ t, x ≠ 'Z' := fun x hx => h x (List.mem_cons_of_mem _ hx)
    rw [List.cons_append, replaceZ_cons, if_neg hc, ih ht, List.cons_append]

theorem parseTrail_fmt (F : Int) (h0 : 0 ≤ F) (h9 : F ≤ 999999) :
    parseTrailChars ((if F = 0 then [] else '.' :: fmt6 F) ++ ['+', '0', '0', ':', '0', '0'])
      = some (F, 0) := by
  by_cases hf : F = 0
  · rw [if_pos hf, hf]
    rfl
  · rw [if_neg hf]
    have hstep : parseTrailChars (('.' :: fmt6 F) ++ ['+', '0', '0', ':', '0', '0'])
        = trailCombine
            (parse6 (digitChar (F / 100000)) (digitChar (F / 10000 % 10))
              (digitChar (F / 1000 % 10)) (digitChar (F / 100 % 10)) (digitChar (F / 10 % 10))
              (digitChar (F % 10)))
            (parseOffsetChars ['+', '0', '0', ':', '0', '0']) := rfl
    rw [hstep, parse6_fmt6 F h0 h9]
    rfl

set_option maxHeartbeats 1000000 in
/-- C7: round trip — serializing an aware datetime with `iso_utc` and parsing
the string back with `local_dt_from_rfc3339` recovers the same point in time,
re-projected into the fixed local timezone: the parsed result is exactly
`astimezoneLocal dt`, carrying the identical instant `dt.u` with the local
zone's offset at that instant (equality of instants, not of strings — the
rendered UTC string and the local projection differ in wall-clock fields).
The hypotheses delimit the instants whose UTC civil year lies in 1..9999,
the range Python's `datetime` can represent. -/
theorem c7_roundtrip_same_instant (dt : PyDatetime)
    (hlo : -62135596800000000 ≤ dt.u) (hhi : dt.u ≤ 253402300799999999) :
    local_dt_from_rfc3339 (some (iso_utc dt)) = .ok (some (astimezoneLocal dt)) := by
  obtain ⟨u, off⟩ := dt
  replace hlo : -62135596800000000 ≤ u := hlo
  replace hhi : u ≤ 253402300799999999 := hhi
  have hDlo : 1 ≤ u / 86400000000 + epochOrdinal := by unfold epochOrdinal; omega
  have hDhi : u / 86400000000 + epochOrdinal ≤ 3652059 := by unfold epochOrdinal; omega
  rcases hOY : ord2ymd (u / 86400000000 + epochOrdinal) with ⟨Y, M, D⟩
  obtain ⟨hY1, hY2, hM1, hM2, hD1, hD2⟩ := ord2ymd_ranges _ _ _ _ hOY hDlo hDhi
  have hymd : ymd2ord Y M D = u / 86400000000 + epochOrdinal := ymd2ord_ord2ymd _ _ _ _ hOY
  have hne : (⟨isoformatUTCChars u ++ ['Z']⟩ : String) ≠ "" := by
    intro hc
    replace hc : isoformatUTCChars u ++ ['Z'] = ([] : List Char) := congrArg String.data hc
    simp at hc
  show (if (⟨isoformatUTCChars u ++ ['Z']⟩ : String) = "" then Except.ok none
        else
          match fromisoformatChars (replaceZ (isoformatUTCChars u ++ ['Z'])) with
          | none => Except.error "ValueError"
          | some dtUtc => Except.ok (some (astimezoneLocal dtUtc)))
      = Except.ok (some (astimezoneLocal ⟨u, off⟩))
  rw [if_neg hne]
  have hiso : isoformatUTCChars u
      = fmt4 Y ++ '-' :: fmt2 M ++ '-' :: fmt2 D
          ++ 'T' :: fmt2 (u % 86400000000 / 3600000000)
          ++ ':' :: fmt2 (u % 86400000000 / 60000000 % 60)
          ++ ':' :: fmt2 (u % 86400000000 / 1000000 % 60)
          ++ (if u % 86400000000 % 1000000 = 0 then []
              else '.' :: fmt6 (u % 86400000000 % 1000000)) := by
    unfold isoformatUTCChars
    rw [hOY]
  rw [hiso, replaceZ_append_Z _ (by rw [← hiso]; exact isoChars_ne_Z u)]
  have hred : fromisoformatChars
      ((fmt4 Y ++ '-' :: fmt2 M ++ '-' :: fmt2 D
          ++ 'T' :: fmt2 (u % 86400000000 / 3600000000)
          ++ ':' :: fmt2 (u % 86400000000 / 60000000 % 60)
          ++ ':' :: fmt2 (u % 86400000000 / 1000000 % 60)
          ++ (if u % 86400000000 % 1000000 = 0 then []
              else '.' :: fmt6 (u % 86400000000 % 1000000))) ++ ['+', '0', '0', ':', '0', '0'])
      = fromisoFields
          (parse4 (digitChar (Y / 1000)) (digitChar (Y / 100 % 10)) (digitChar (Y / 10 % 10))
            (digitChar (Y % 10)))
          (parse2 (digitChar (M / 10)) (digitChar (M % 10)))
          (parse2 (digitChar (D / 10)) (digitChar (D % 10)))
          (parse2 (digitChar (u % 86400000000 / 3600000000 / 10))
            (digitChar (u % 86400000000 / 3600000000 % 10)))
          (parse2 (digitChar (u % 86400000000 / 60000000 % 60 / 10))
            (digitChar (u % 86400000000 / 60000000 % 60 % 10)))
          (parse2 (digitChar (u % 86400000000 / 1000000 % 60 / 10))
            (digitChar (u % 86400000000 / 1000000 % 60 % 10)))
          (parseTrailChars ((if u % 86400000000 % 1000000 = 0 then []
              else '.' :: fmt6 (u % 86400000000 % 1000000)) ++ ['+', '0', '0', ':', '0', '0']))
      := rfl
  rw [hred,
      parse4_fmt4 Y (by omega) (by omega),
      parse2_fmt2 M (by omega) (by omega),
      parse2_fmt2 D (by omega) (by omega),
      parse2_fmt2 (u % 86400000000 / 3600000000) (by omega) (by omega),
      parse2_fmt2 (u % 86400000000 / 60000000 % 60) (by omega) (by omega),
      parse2_fmt2 (u % 86400000000 / 1000000 % 60) (by omega) (by omega),
      parseTrail_fmt (u % 86400000000 % 1000000) (by omega) (by omega)]
  have hcond : 1 ≤ Y ∧ 1 ≤ M ∧ M ≤ 12 ∧ 1 ≤ D ∧ D ≤ 31 ∧
      u % 86400000000 / 3600000000 ≤ 23 ∧ u % 86400000000 / 60000000 % 60 ≤ 59 ∧
      u % 86400000000 / 1000000 % 60 ≤ 59 ∧ ord2ymd (ymd2ord Y M D) = (Y, M, D) := by
    refine ⟨hY1, hM1, hM2, hD1, hD2, by omega, by omega, by omega, ?_⟩
    rw [hymd]
    exact hOY
  have hfold : fromisoFields (some Y) (some M) (some D)
      (some (u % 86400000000 / 3600000000)) (some (u % 86400000000 / 60000000 % 60))
      (some (u % 86400000000 / 1000000 % 60)) (some (u % 86400000000 % 1000000, 0))
      = (some ⟨(ymd2ord Y M D - epochOrdinal) * 86400000000
            + (u % 86400000000 / 3600000000 * 3600 + u % 86400000000 / 60000000 % 60 * 60
                + u % 86400000000 / 1000000 % 60) * 1000000
            + u % 86400000000 % 1000000 - 0 * 1000000, 0⟩ : Option PyDatetime) := by
    show (if 1 ≤ Y ∧ 1 ≤ M ∧ M ≤ 12 ∧ 1 ≤ D ∧ D ≤ 31 ∧
        u % 86400000000 / 3600000000 ≤ 23 ∧ u % 86400000000 / 60000000 % 60 ≤ 59 ∧
        u % 86400000000 / 1000000 % 60 ≤ 59 ∧ ord2ymd (ymd2ord Y M D) = (Y, M, D) then
        some (⟨(ymd2ord Y M D - epochOrdinal) * 86400000000
              + (u % 86400000000 / 3600000000 * 3600 + u % 86400000000 / 60000000 % 60 * 60
                  + u % 86400000000 / 1000000 % 60) * 1000000
              + u % 86400000000 % 1000000 - 0 * 1000000, 0⟩ : PyDatetime)
      else none) = _
    rw [if_pos hcond]
  rw [hfold]
  have hu : (ymd2ord Y M D - epochOrdinal) * 86400000000
      + (u % 86400000000 / 3600000000 * 3600 + u % 86400000000 / 60000000 % 60 * 60
          + u % 86400000000 / 1000000 % 60) * 1000000
      + u % 86400000000 % 1000000 - 0 * 1000000 = u := by
    rw [hymd]
    unfold epochOrdinal
    omega
  rw [hu]
  rfl

/-- C7 witness: the instant 2025-11-23T18:00:00Z (1763920800000000 μs since
the epoch) serializes and parses back to the same instant at the local
standard-time offset −28800 s (PST). -/
theorem c7_witness :
    -62135596800000000 ≤ (1763920800000000 : Int) ∧
    (1763920800000000 : Int) ≤ 253402300799999999 ∧
    local_dt_from_rfc3339 (some (iso_utc ⟨1763920800000000, 0⟩))
      = .ok (some ⟨1763920800000000, -28800⟩) := by
  refine ⟨by decide, by decide, ?_⟩
  have h := c7_roundtrip_same_instant ⟨1763920800000000, 0⟩ (by decide) (by decide)
  rw [h]
  decide
